import Mathlib

/-!
Key schema of the index database (`lib/db/keyer.go`).

A shallow embedding of the keyer: the generators and parsers of the typed
database keys, the `resize` buffer helper, and the extraction done by the
index dump tool (`cmd/stindex/dump.go`). The proxy dial with fallback of
`lib/dialer/public.go` is embedded in the namespace `Dialer`.

Modelling conventions

* A byte is a natural number; every computed byte is reduced modulo 256 where
  the Go code converts to `byte`, and every byte read back into a wider integer
  is reduced modulo 256 as well.
* A Go byte slice is the pair of its visible elements and of the rest of its
  backing array up to the capacity (`Slice`).  Arguments that are only read
  (`folder`, `device`, `name`, `hash`) are plain byte lists: they are values,
  so an argument sharing its storage with the supplied buffer is outside the
  model.
* A run-time panic (index or slice bounds out of range) and an error returned
  by an interner are the two ways an operation can fail (`Failure`).
* The two interners of a keyer are objects of one type, `smallIndex`, whose
  implementation is not part of the sources at hand: its two methods are a
  parameter of the development and the state of each object is threaded
  explicitly.
-/

namespace Keyer

/-! ## Constants -/

def keyPrefixLen : Nat := 1
def keyFolderLen : Nat := 4
def keyDeviceLen : Nat := 4
def keySequenceLen : Nat := 8
def keyHashLen : Nat := 32

def KeyTypeDevice : Nat := 0
def KeyTypeGlobal : Nat := 1
def KeyTypeBlock : Nat := 2
def KeyTypeDeviceStatistic : Nat := 3
def KeyTypeFolderStatistic : Nat := 4
def KeyTypeVirtualMtime : Nat := 5
def KeyTypeFolderIdx : Nat := 6
def KeyTypeDeviceIdx : Nat := 7
def KeyTypeIndexID : Nat := 8
def KeyTypeFolderMeta : Nat := 9
def KeyTypeMiscData : Nat := 10
def KeyTypeSequence : Nat := 11
def KeyTypeNeed : Nat := 12
def KeyTypeBlockList : Nat := 13

/-! ## Byte slices -/

/-- A byte string that is only read. -/
abbrev Bytes := List Nat

/-- The ways an operation fails: an error returned by `smallIndex.ID`, or a
run-time panic for an index or a slice bound out of range. -/
inductive Failure where
  | interner (code : Nat)
  | outOfRange
deriving DecidableEq, Repr

/-- A Go `[]byte` seen from its first element: `elems` are the `len` visible
bytes, `spare` the bytes of the backing array between `len` and `cap`. -/
structure Slice where
  elems : List Nat
  spare : List Nat
deriving DecidableEq, Repr

namespace Slice

/-- The nil slice: no elements, no capacity. -/
def nil : Slice := ⟨[], []⟩

/-- Go `len(s)`. -/
def len (s : Slice) : Nat := s.elems.length

/-- Go `cap(s)`. -/
def cap (s : Slice) : Nat := s.elems.length + s.spare.length

/-- Go `make([]byte, size)`: `size` zero bytes, nothing spare. -/
def make (size : Nat) : Slice := ⟨List.replicate size 0, []⟩

/-- The reslice `s[:hi]` when `hi ≤ cap(s)`: the first `hi` bytes of the
backing array become visible, whatever `len(s)` was. -/
def upTo (s : Slice) (hi : Nat) : Slice :=
  ⟨(s.elems ++ s.spare).take hi, (s.elems ++ s.spare).drop hi⟩

/-- Go `s[:hi]`: panics when `hi > cap(s)`. -/
def sliceTo (s : Slice) (hi : Nat) : Except Failure Slice :=
  if hi ≤ s.cap then .ok (s.upTo hi) else .error .outOfRange

/-- Go `s[lo:]`: panics when `lo > len(s)`. -/
def sliceFrom (s : Slice) (lo : Nat) : Except Failure Slice :=
  if lo ≤ s.len then .ok ⟨s.elems.drop lo, s.spare⟩ else .error .outOfRange

/-- Go `s[lo:hi]`: panics when `hi > cap(s)` or `lo > hi`. -/
def sliceRange (s : Slice) (lo hi : Nat) : Except Failure Slice :=
  if hi ≤ s.cap ∧ lo ≤ hi then
    .ok ⟨((s.elems ++ s.spare).take hi).drop lo, (s.elems ++ s.spare).drop hi⟩
  else .error .outOfRange

/-- Go `s[i] = v`: panics when `i ≥ len(s)`. -/
def setIndex (s : Slice) (i v : Nat) : Except Failure Slice :=
  if i < s.len then .ok { s with elems := s.elems.set i v } else .error .outOfRange

/-- Go `copy(dst, src)`: the first `min(len(dst), len(src))` bytes of `dst` are
overwritten by those of `src`; never panics. -/
def copy (dst : Slice) (src : Bytes) : Slice :=
  { dst with elems := src.take (min dst.len src.length) ++ dst.elems.drop (min dst.len src.length) }

/-- A write `op` done through the sub-slice `s[lo:]`, which shares its backing
array with `s`: the bytes before `lo` stay, the rest is what `op` left. Panics
when `lo > len(s)` or when `op` panics. -/
def writeFrom (s : Slice) (lo : Nat) (op : Slice → Except Failure Slice) : Except Failure Slice :=
  match s.sliceFrom lo with
  | .error e => .error e
  | .ok b =>
    match op b with
    | .error e => .error e
    | .ok b' => .ok ⟨s.elems.take lo ++ b'.elems, b'.spare⟩

end Slice

/-! ## `encoding/binary` big-endian accessors -/

/-- The four big-endian bytes of `v` taken as an unsigned 32-bit number. -/
def be32 (v : Nat) : Bytes :=
  [v / 2 ^ 24 % 256, v / 2 ^ 16 % 256, v / 2 ^ 8 % 256, v % 256]

/-- The eight big-endian bytes of `v` taken as an unsigned 64-bit number. -/
def be64 (v : Nat) : Bytes :=
  [v / 2 ^ 56 % 256, v / 2 ^ 48 % 256, v / 2 ^ 40 % 256, v / 2 ^ 32 % 256,
   v / 2 ^ 24 % 256, v / 2 ^ 16 % 256, v / 2 ^ 8 % 256, v % 256]

/-- Go `binary.BigEndian.PutUint32(b, v)`: panics when `len(b) < 4`, else
overwrites `b[0..3]`. -/
def PutUint32 (b : Slice) (v : Nat) : Except Failure Slice :=
  if b.len < 4 then .error .outOfRange
  else .ok { b with elems := be32 v ++ b.elems.drop 4 }

/-- Go `binary.BigEndian.Uint32(b)`: panics when `len(b) < 4`. -/
def Uint32 (b : Slice) : Except Failure Nat :=
  match b.elems with
  | b0 :: b1 :: b2 :: b3 :: _ =>
    .ok (b3 % 256 + b2 % 256 * 2 ^ 8 + b1 % 256 * 2 ^ 16 + b0 % 256 * 2 ^ 24)
  | _ => .error .outOfRange

/-- Go `binary.BigEndian.PutUint64(b, v)`: panics when `len(b) < 8`, else
overwrites `b[0..7]`. -/
def PutUint64 (b : Slice) (v : Nat) : Except Failure Slice :=
  if b.len < 8 then .error .outOfRange
  else .ok { b with elems := be64 v ++ b.elems.drop 8 }

/-- Go `binary.BigEndian.Uint64(b)`: panics when `len(b) < 8`. -/
def Uint64 (b : Slice) : Except Failure Nat :=
  match b.elems with
  | b0 :: b1 :: b2 :: b3 :: b4 :: b5 :: b6 :: b7 :: _ =>
    .ok (b7 % 256 + b6 % 256 * 2 ^ 8 + b5 % 256 * 2 ^ 16 + b4 % 256 * 2 ^ 24
      + b3 % 256 * 2 ^ 32 + b2 % 256 * 2 ^ 40 + b1 % 256 * 2 ^ 48 + b0 % 256 * 2 ^ 56)
  | _ => .error .outOfRange

/-- Go conversion `uint64(seq)` of an `int64`: the value modulo `2^64`. -/
def uint64 (seq : Int) : Nat := (seq % 2 ^ 64).toNat

/-- Go conversion `int64(u)` of a `uint64`: two's complement. -/
def int64 (u : Nat) : Int :=
  if u % 2 ^ 64 < 2 ^ 63 then ((u % 2 ^ 64 : Nat) : Int) else ((u % 2 ^ 64 : Nat) : Int) - 2 ^ 64

/-! ## The interners -/

/-- The methods of the interner type `smallIndex` over a state `σ`.
`ID s x` is the outcome of `ID(x)` on an interner in state `s` (a 32-bit
handle or an error code) and the state it leaves; `Val s i` is `Val(i)`. -/
structure smallIndex (σ : Type) where
  ID : σ → Bytes → Except Nat Nat × σ
  Val : σ → Nat → Bytes × Bool

/-- A `defaultKeyer`: the folder interner and the device interner, two
distinct objects, each given by its current state. -/
structure defaultKeyer (σ : Type) where
  folderIdx : σ
  deviceIdx : σ
deriving DecidableEq, Repr

/-- Go `resize`: a byte slice of the specified size, reusing `bs` if possible. -/
def resize (bs : Slice) (size : Nat) : Slice :=
  if bs.cap < size then Slice.make size else bs.upTo size

/-! ## Generators and parsers -/

/-- Go `deviceFileKey.WithoutNameAndDevice`: `k[:keyPrefixLen+keyFolderLen]`. -/
def WithoutNameAndDevice (k : Slice) : Except Failure Slice :=
  k.sliceTo (keyPrefixLen + keyFolderLen)

/-- Go `defaultKeyer.GenerateDeviceFileKey`. -/
def GenerateDeviceFileKey {σ : Type} (ix : smallIndex σ) (k : defaultKeyer σ)
    (key : Slice) (folder device name : Bytes) : Except Failure Slice × defaultKeyer σ :=
  match ix.ID k.folderIdx folder with
  | (.error e, sF) => (.error (.interner e), { k with folderIdx := sF })
  | (.ok folderID, sF) =>
    match ix.ID k.deviceIdx device with
    | (.error e, sD) => (.error (.interner e), ⟨sF, sD⟩)
    | (.ok deviceID, sD) =>
      (do
        let key := resize key (keyPrefixLen + keyFolderLen + keyDeviceLen + name.length)
        let key ← key.setIndex 0 KeyTypeDevice
        let key ← key.writeFrom keyPrefixLen (fun b => PutUint32 b folderID)
        let key ← key.writeFrom (keyPrefixLen + keyFolderLen) (fun b => PutUint32 b deviceID)
        key.writeFrom (keyPrefixLen + keyFolderLen + keyDeviceLen) (fun b => .ok (b.copy name)),
       ⟨sF, sD⟩)

/-- Go `defaultKeyer.NameFromDeviceFileKey`. -/
def NameFromDeviceFileKey (key : Slice) : Except Failure Slice :=
  key.sliceFrom (keyPrefixLen + keyFolderLen + keyDeviceLen)

/-- Go `defaultKeyer.DeviceFromDeviceFileKey`. -/
def DeviceFromDeviceFileKey {σ : Type} (ix : smallIndex σ) (k : defaultKeyer σ)
    (key : Slice) : Except Failure (Bytes × Bool) := do
  let b ← key.sliceFrom (keyPrefixLen + keyFolderLen)
  let id ← Uint32 b
  pure (ix.Val k.deviceIdx id)

/-- Go `defaultKeyer.FolderFromDeviceFileKey`. -/
def FolderFromDeviceFileKey {σ : Type} (ix : smallIndex σ) (k : defaultKeyer σ)
    (key : Slice) : Except Failure (Bytes × Bool) := do
  let b ← key.sliceFrom keyPrefixLen
  let id ← Uint32 b
  pure (ix.Val k.folderIdx id)

/-- Go `globalVersionKey.WithoutName`: `k[:keyPrefixLen+keyFolderLen]`. -/
def globalVersionKey.WithoutName (k : Slice) : Except Failure Slice :=
  k.sliceTo (keyPrefixLen + keyFolderLen)

/-- Go `defaultKeyer.GenerateGlobalVersionKey`. -/
def GenerateGlobalVersionKey {σ : Type} (ix : smallIndex σ) (k : defaultKeyer σ)
    (key : Slice) (folder name : Bytes) : Except Failure Slice × defaultKeyer σ :=
  match ix.ID k.folderIdx folder with
  | (.error e, sF) => (.error (.interner e), { k with folderIdx := sF })
  | (.ok folderID, sF) =>
    (do
      let key := resize key (keyPrefixLen + keyFolderLen + name.length)
      let key ← key.setIndex 0 KeyTypeGlobal
      let key ← key.writeFrom keyPrefixLen (fun b => PutUint32 b folderID)
      key.writeFrom (keyPrefixLen + keyFolderLen) (fun b => .ok (b.copy name)),
     { k with folderIdx := sF })

/-- Go `defaultKeyer.NameFromGlobalVersionKey`. -/
def NameFromGlobalVersionKey (key : Slice) : Except Failure Slice :=
  key.sliceFrom (keyPrefixLen + keyFolderLen)

/-- Go `defaultKeyer.FolderFromGlobalVersionKey`. -/
def FolderFromGlobalVersionKey {σ : Type} (ix : smallIndex σ) (k : defaultKeyer σ)
    (key : Slice) : Except Failure (Bytes × Bool) := do
  let b ← key.sliceFrom keyPrefixLen
  let id ← Uint32 b
  pure (ix.Val k.folderIdx id)

/-- Go `defaultKeyer.GenerateBlockMapKey`. -/
def GenerateBlockMapKey {σ : Type} (ix : smallIndex σ) (k : defaultKeyer σ)
    (key : Slice) (folder hash name : Bytes) : Except Failure Slice × defaultKeyer σ :=
  match ix.ID k.folderIdx folder with
  | (.error e, sF) => (.error (.interner e), { k with folderIdx := sF })
  | (.ok folderID, sF) =>
    (do
      let key := resize key (keyPrefixLen + keyFolderLen + keyHashLen + name.length)
      let key ← key.setIndex 0 KeyTypeBlock
      let key ← key.writeFrom keyPrefixLen (fun b => PutUint32 b folderID)
      let key ← key.writeFrom (keyPrefixLen + keyFolderLen) (fun b => .ok (b.copy hash))
      key.writeFrom (keyPrefixLen + keyFolderLen + keyHashLen) (fun b => .ok (b.copy name)),
     { k with folderIdx := sF })

/-- Go `defaultKeyer.NameFromBlockMapKey`. -/
def NameFromBlockMapKey (key : Slice) : Except Failure Slice :=
  key.sliceFrom (keyPrefixLen + keyFolderLen + keyHashLen)

/-- Go `blockMapKey.WithoutHashAndName`: `k[:keyPrefixLen+keyFolderLen]`. -/
def WithoutHashAndName (k : Slice) : Except Failure Slice :=
  k.sliceTo (keyPrefixLen + keyFolderLen)

/-- Go `needFileKey.WithoutName`: `k[:keyPrefixLen+keyFolderLen]`. -/
def needFileKey.WithoutName (k : Slice) : Except Failure Slice :=
  k.sliceTo (keyPrefixLen + keyFolderLen)

/-- Go `defaultKeyer.GenerateNeedFileKey`. -/
def GenerateNeedFileKey {σ : Type} (ix : smallIndex σ) (k : defaultKeyer σ)
    (key : Slice) (folder name : Bytes) : Except Failure Slice × defaultKeyer σ :=
  match ix.ID k.folderIdx folder with
  | (.error e, sF) => (.error (.interner e), { k with folderIdx := sF })
  | (.ok folderID, sF) =>
    (do
      let key := resize key (keyPrefixLen + keyFolderLen + name.length)
      let key ← key.setIndex 0 KeyTypeNeed
      let key ← key.writeFrom keyPrefixLen (fun b => PutUint32 b folderID)
      key.writeFrom (keyPrefixLen + keyFolderLen) (fun b => .ok (b.copy name)),
     { k with folderIdx := sF })

/-- Go `sequenceKey.WithoutSequence`: `k[:keyPrefixLen+keyFolderLen]`. -/
def WithoutSequence (k : Slice) : Except Failure Slice :=
  k.sliceTo (keyPrefixLen + keyFolderLen)

/-- Go `defaultKeyer.GenerateSequenceKey`; `seq` is the `int64` argument. -/
def GenerateSequenceKey {σ : Type} (ix : smallIndex σ) (k : defaultKeyer σ)
    (key : Slice) (folder : Bytes) (seq : Int) : Except Failure Slice × defaultKeyer σ :=
  match ix.ID k.folderIdx folder with
  | (.error e, sF) => (.error (.interner e), { k with folderIdx := sF })
  | (.ok folderID, sF) =>
    (do
      let key := resize key (keyPrefixLen + keyFolderLen + keySequenceLen)
      let key ← key.setIndex 0 KeyTypeSequence
      let key ← key.writeFrom keyPrefixLen (fun b => PutUint32 b folderID)
      key.writeFrom (keyPrefixLen + keyFolderLen) (fun b => PutUint64 b (uint64 seq)),
     { k with folderIdx := sF })

/-- Go `defaultKeyer.SequenceFromSequenceKey`. -/
def SequenceFromSequenceKey (key : Slice) : Except Failure Int := do
  let b ← key.sliceFrom (keyPrefixLen + keyFolderLen)
  let u ← Uint64 b
  pure (int64 u)

/-- Go `defaultKeyer.GenerateIndexIDKey`: the device interner is asked first. -/
def GenerateIndexIDKey {σ : Type} (ix : smallIndex σ) (k : defaultKeyer σ)
    (key : Slice) (device folder : Bytes) : Except Failure Slice × defaultKeyer σ :=
  match ix.ID k.deviceIdx device with
  | (.error e, sD) => (.error (.interner e), { k with deviceIdx := sD })
  | (.ok deviceID, sD) =>
    match ix.ID k.folderIdx folder with
    | (.error e, sF) => (.error (.interner e), ⟨sF, sD⟩)
    | (.ok folderID, sF) =>
      (do
        let key := resize key (keyPrefixLen + keyDeviceLen + keyFolderLen)
        let key ← key.setIndex 0 KeyTypeIndexID
        let key ← key.writeFrom keyPrefixLen (fun b => PutUint32 b deviceID)
        key.writeFrom (keyPrefixLen + keyDeviceLen) (fun b => PutUint32 b folderID),
       ⟨sF, sD⟩)

/-- Go `defaultKeyer.DeviceFromIndexIDKey`. -/
def DeviceFromIndexIDKey {σ : Type} (ix : smallIndex σ) (k : defaultKeyer σ)
    (key : Slice) : Except Failure (Bytes × Bool) := do
  let b ← key.sliceFrom keyPrefixLen
  let id ← Uint32 b
  pure (ix.Val k.deviceIdx id)

/-- Go `defaultKeyer.GenerateMtimesKey`. -/
def GenerateMtimesKey {σ : Type} (ix : smallIndex σ) (k : defaultKeyer σ)
    (key : Slice) (folder : Bytes) : Except Failure Slice × defaultKeyer σ :=
  match ix.ID k.folderIdx folder with
  | (.error e, sF) => (.error (.interner e), { k with folderIdx := sF })
  | (.ok folderID, sF) =>
    (do
      let key := resize key (keyPrefixLen + keyFolderLen)
      let key ← key.setIndex 0 KeyTypeVirtualMtime
      key.writeFrom keyPrefixLen (fun b => PutUint32 b folderID),
     { k with folderIdx := sF })

/-- Go `defaultKeyer.GenerateFolderMetaKey`. -/
def GenerateFolderMetaKey {σ : Type} (ix : smallIndex σ) (k : defaultKeyer σ)
    (key : Slice) (folder : Bytes) : Except Failure Slice × defaultKeyer σ :=
  match ix.ID k.folderIdx folder with
  | (.error e, sF) => (.error (.interner e), { k with folderIdx := sF })
  | (.ok folderID, sF) =>
    (do
      let key := resize key (keyPrefixLen + keyFolderLen)
      let key ← key.setIndex 0 KeyTypeFolderMeta
      key.writeFrom keyPrefixLen (fun b => PutUint32 b folderID),
     { k with folderIdx := sF })

/-- Go `defaultKeyer.GenerateBlockListKey`: no interner is involved. -/
def GenerateBlockListKey (key : Slice) (hash : Bytes) : Except Failure Slice := do
  let key := resize key (keyPrefixLen + hash.length)
  let key ← key.setIndex 0 KeyTypeBlockList
  key.writeFrom keyPrefixLen (fun b => .ok (b.copy hash))

/-- Go `blockListKey.BlocksHash`: `k[keyPrefixLen:]`. -/
def BlocksHash (k : Slice) : Except Failure Slice :=
  k.sliceFrom keyPrefixLen

/-! ## The extraction of the index dump tool -/

/-- The `db.KeyTypeDevice` case of `dump`: `Uint32(key[1:])`, `Uint32(key[1+4:])`
and the bytes `key[1+4+4:]` handed to the formatter. -/
def dumpDevice (key : Slice) : Except Failure (Nat × Nat × Bytes) := do
  let b ← key.sliceFrom 1
  let folder ← Uint32 b
  let b ← key.sliceFrom (1 + 4)
  let device ← Uint32 b
  let name ← key.sliceFrom (1 + 4 + 4)
  pure (folder, device, name.elems)

/-- The `db.KeyTypeBlock` case of `dump`: `Uint32(key[1:])`, `key[1+4 : 1+4+32]`
and the bytes `key[1+4+32:]`. -/
def dumpBlock (key : Slice) : Except Failure (Nat × Bytes × Bytes) := do
  let b ← key.sliceFrom 1
  let folder ← Uint32 b
  let hash ← key.sliceRange (1 + 4) (1 + 4 + 32)
  let name ← key.sliceFrom (1 + 4 + 32)
  pure (folder, hash.elems, name.elems)

/-- The `db.KeyTypeIndexID` case of `dump`: `Uint32(it.Key()[1:])` is the device,
`Uint32(it.Key()[5:])` the folder. -/
def dumpIndexID (key : Slice) : Except Failure (Nat × Nat) := do
  let b ← key.sliceFrom 1
  let device ← Uint32 b
  let b ← key.sliceFrom 5
  let folder ← Uint32 b
  pure (device, folder)

/-! ## A reference interner -/

/-- The state of the reference interner: `vals[i]` is the byte string of
handle `i`; `writable` tells whether the backend accepts the write of a new
entry. -/
structure indexState where
  vals : List Bytes
  writable : Bool
deriving DecidableEq, Repr

/-- Modelled from the spec: the interner `smallIndex` (its source file is not
among the sources). `ID` returns the handle of a known byte string, else
assigns the next handle, in allocation order from 0, and persists it; when the
backend write fails the allocation is rolled back and the error is returned.
`Val` is the reverse lookup, with `ok = false` for a handle never assigned. -/
def specIndex : smallIndex indexState where
  ID := fun s x =>
    match s.vals.indexOf? x with
    | some i => (.ok i, s)
    | none =>
      if s.writable then (.ok s.vals.length, { s with vals := s.vals ++ [x] })
      else (.error 1, s)
  Val := fun s i =>
    match s.vals[i]? with
    | some v => (v, true)
    | none => ([], false)

/-- A fresh store: both interners empty, backend writable. -/
def freshKeyer : defaultKeyer indexState :=
  ⟨⟨[], true⟩, ⟨[], true⟩⟩

/-- The slice `p` is the folder header of `key`: its bytes are a prefix of the
key, namely the first `keyPrefixLen + keyFolderLen` of them, and they are the
type byte `t` followed by the big-endian handle `fid`. -/
def IsFolderHeader (t fid : Nat) (key p : Slice) : Prop :=
  p.elems <+: key.elems ∧ p.elems = key.elems.take (keyPrefixLen + keyFolderLen)
    ∧ p.elems = t :: be32 fid

/-! ## Order of the keys in the backend -/

/-- Bytewise lexicographic comparison of two byte strings, the order in which
the backend iterates over keys: `bytesLess a b` is `bytes.Compare(a, b) < 0`. -/
def bytesLess : Bytes → Bytes → Bool
  | [], [] => false
  | [], _ :: _ => true
  | _ :: _, [] => false
  | a :: as, b :: bs => a < b || (a == b && bytesLess as bs)

/-! ## The nine generators as one family -/

/-- A call of one of the nine key generators of the keyer, with its fields. -/
inductive GenCall where
  | deviceFile (folder device name : Bytes)
  | globalVersion (folder name : Bytes)
  | blockMap (folder hash name : Bytes)
  | needFile (folder name : Bytes)
  | sequence (folder : Bytes) (seq : Int)
  | indexID (device folder : Bytes)
  | mtimes (folder : Bytes)
  | folderMeta (folder : Bytes)
  | blockList (hash : Bytes)

namespace GenCall

/-- The call run on the keyer `k` with the supplied buffer `buf`. -/
def run {σ : Type} (ix : smallIndex σ) (k : defaultKeyer σ) (buf : Slice) :
    GenCall → Except Failure Slice × defaultKeyer σ
  | deviceFile folder device name => GenerateDeviceFileKey ix k buf folder device name
  | globalVersion folder name => GenerateGlobalVersionKey ix k buf folder name
  | blockMap folder hash name => GenerateBlockMapKey ix k buf folder hash name
  | needFile folder name => GenerateNeedFileKey ix k buf folder name
  | sequence folder seq => GenerateSequenceKey ix k buf folder seq
  | indexID device folder => GenerateIndexIDKey ix k buf device folder
  | mtimes folder => GenerateMtimesKey ix k buf folder
  | folderMeta folder => GenerateFolderMetaKey ix k buf folder
  | blockList hash => (GenerateBlockListKey buf hash, k)

/-- The key type constant that the generator of the call stores in `key[0]`. -/
def typeByte : GenCall → Nat
  | deviceFile _ _ _ => KeyTypeDevice
  | globalVersion _ _ => KeyTypeGlobal
  | blockMap _ _ _ => KeyTypeBlock
  | needFile _ _ => KeyTypeNeed
  | sequence _ _ => KeyTypeSequence
  | indexID _ _ => KeyTypeIndexID
  | mtimes _ => KeyTypeVirtualMtime
  | folderMeta _ => KeyTypeFolderMeta
  | blockList _ => KeyTypeBlockList

/-- Whether two calls are calls of the same generator. -/
def sameKind : GenCall → GenCall → Bool
  | deviceFile _ _ _, deviceFile _ _ _ => true
  | globalVersion _ _, globalVersion _ _ => true
  | blockMap _ _ _, blockMap _ _ _ => true
  | needFile _ _, needFile _ _ => true
  | sequence _ _, sequence _ _ => true
  | indexID _ _, indexID _ _ => true
  | mtimes _, mtimes _ => true
  | folderMeta _, folderMeta _ => true
  | blockList _, blockList _ => true
  | _, _ => false

end GenCall

/-- The fourteen key type constants, in the order of their declaration. -/
def keyTypes : List Nat :=
  [KeyTypeDevice, KeyTypeGlobal, KeyTypeBlock, KeyTypeDeviceStatistic, KeyTypeFolderStatistic,
   KeyTypeVirtualMtime, KeyTypeFolderIdx, KeyTypeDeviceIdx, KeyTypeIndexID, KeyTypeFolderMeta,
   KeyTypeMiscData, KeyTypeSequence, KeyTypeNeed, KeyTypeBlockList]

namespace GenCall

/-- The folder the generator of the call hands to the folder interner, if any. -/
def folderArg : GenCall → Option Bytes
  | deviceFile folder _ _ => some folder
  | globalVersion folder _ => some folder
  | blockMap folder _ _ => some folder
  | needFile folder _ => some folder
  | sequence folder _ => some folder
  | indexID _ folder => some folder
  | mtimes folder => some folder
  | folderMeta folder => some folder
  | blockList _ => none

/-- The device the generator of the call hands to the device interner, if any. -/
def deviceArg : GenCall → Option Bytes
  | deviceFile _ device _ => some device
  | indexID device _ => some device
  | _ => none

/-- Every interner call that the generator makes on the keyer `k` succeeds. -/
def lookupsOk {σ : Type} (ix : smallIndex σ) (k : defaultKeyer σ) (c : GenCall) : Prop :=
  (∀ folder, c.folderArg = some folder → ∃ fid sF, ix.ID k.folderIdx folder = (.ok fid, sF))
    ∧ (∀ device, c.deviceArg = some device →
        ∃ did sD, ix.ID k.deviceIdx device = (.ok did, sD))

end GenCall

/-! ## Histories of the reference interner -/

/-- The state `t` comes after the state `s` in the life of a reference
interner: between them there were any number of `ID` calls, and the backend
may have started or stopped accepting writes at any point. -/
inductive Later : indexState → indexState → Prop where
  | refl (s : indexState) : Later s s
  | call (s t : indexState) (x : Bytes) : Later s t → Later s (specIndex.ID t x).2
  | backend (s t : indexState) (w : Bool) : Later s t → Later s { t with writable := w }

end Keyer

/-! ## Dialing through a proxy with a direct fallback (`lib/dialer/public.go`)

The two dials of `dialContextWithFallback` run in goroutines of their own; the
function and the goroutines are a small machine whose steps a schedule
interleaves. What a dial returns is a parameter of the machine. -/

namespace Dialer

/-- A `net.Conn` value other than nil. -/
abbrev Conn := Nat

/-- An `error` value other than nil. -/
abbrev Error := Nat

/-- The pair `(net.Conn, error)` that a `DialContext` call returns; nil is
`none`. -/
structure DialResult where
  conn : Option Conn
  err : Option Error
deriving DecidableEq, Repr

/-- The package error `errUnexpectedInterfaceType`. -/
def errUnexpectedInterfaceType : Error := 0

/-- What `proxy.FromEnvironment()` gives: a dialer that is no
`proxy.ContextDialer`, the dialer `proxy.Direct`, or another context dialer. -/
inductive EnvDialer where
  | noContextDialer
  | direct
  | proxied
deriving DecidableEq, Repr

/-- Where the function itself stands once the goroutines are started: blocked
on `<-proxyDone`, blocked on `<-fallbackDone`, or returned with its results. -/
inductive MainPC where
  | waitProxy
  | waitFallback
  | returned (conn : Option Conn) (err : Option Error)
deriving DecidableEq, Repr

/-- The goroutine started when the proxy dial succeeded, which closes the
fallback connection: not started, blocked on `<-fallbackDone`, or finished. -/
inductive CloserPC where
  | notStarted
  | waiting
  | finished
deriving DecidableEq, Repr

/-- The shared variables of the concurrent part and the progress of each
goroutine. `proxyAssigned` tells that the proxy goroutine has executed
`proxyConn, proxyErr = dialer.DialContext(...)`, `proxyDone` that it has
closed the channel `proxyDone`; likewise for the fallback goroutine.
`fallbackClosed` tells that `fallbackConn.Close()` was called. -/
structure State where
  proxyConn : Option Conn
  proxyErr : Option Error
  fallbackConn : Option Conn
  fallbackErr : Option Error
  proxyAssigned : Bool
  proxyDone : Bool
  fallbackAssigned : Bool
  fallbackDone : Bool
  main : MainPC
  closer : CloserPC
  fallbackClosed : Bool
deriving DecidableEq, Repr

/-- The state after the declarations and the two `go` statements: all four
variables nil, both channels open, the function about to wait. -/
def State.init : State :=
  { proxyConn := none, proxyErr := none, fallbackConn := none, fallbackErr := none,
    proxyAssigned := false, proxyDone := false, fallbackAssigned := false, fallbackDone := false,
    main := .waitProxy, closer := .notStarted, fallbackClosed := false }

/-- One step of one goroutine. -/
inductive Action where
  | proxyDial
  | proxyClose
  | fallbackDial
  | fallbackClose
  | main
  | closer
deriving DecidableEq, Repr

/-- The step `a` taken in the state `s`, or `none` when the goroutine cannot
move: `pr` and `fr` are what the proxy dial and the fallback dial return. -/
def step (pr fr : DialResult) (s : State) : Action → Option State
  | .proxyDial =>
    if s.proxyAssigned then none
    else some { s with proxyConn := pr.conn, proxyErr := pr.err, proxyAssigned := true }
  | .proxyClose =>
    if s.proxyAssigned && !s.proxyDone then some { s with proxyDone := true } else none
  | .fallbackDial =>
    if s.fallbackAssigned then none
    else some { s with fallbackConn := fr.conn, fallbackErr := fr.err, fallbackAssigned := true }
  | .fallbackClose =>
    if s.fallbackAssigned && !s.fallbackDone then some { s with fallbackDone := true } else none
  | .main =>
    match s.main with
    | .waitProxy =>
      if s.proxyDone then
        if s.proxyErr.isNone then
          some { s with main := .returned s.proxyConn none, closer := .waiting }
        else some { s with main := .waitFallback }
      else none
    | .waitFallback =>
      if s.fallbackDone then some { s with main := .returned s.fallbackConn s.fallbackErr }
      else none
    | .returned _ _ => none
  | .closer =>
    match s.closer with
    | .waiting =>
      if s.fallbackDone then
        some { s with closer := .finished, fallbackClosed := s.fallbackErr.isNone }
      else none
    | _ => none

/-- The steps of a schedule taken one after the other, `none` when one of them
cannot be taken. -/
def exec (pr fr : DialResult) : List Action → State → Option State
  | [], s => some s
  | a :: as, s =>
    match step pr fr s a with
    | some s' => exec pr fr as s'
    | none => none

/-- Go `dialContextWithFallback`: `env` is what `proxy.FromEnvironment()` gives,
`noFallback` the package variable, `pr` and `fr` what the dial through the
proxy and the dial through `fallback` return, `sched` the interleaving of the
goroutines. The result is `none` when the schedule stops before the function
has returned. -/
def dialContextWithFallback (env : EnvDialer) (noFallback : Bool) (pr fr : DialResult)
    (sched : List Action) : Option (Option Conn × Option Error) :=
  match env with
  | .noContextDialer => some (none, some errUnexpectedInterfaceType)
  | .direct => some (fr.conn, fr.err)
  | .proxied =>
    if noFallback then some (pr.conn, pr.err)
    else
      match exec pr fr sched State.init with
      | some s =>
        match s.main with
        | .returned conn err => some (conn, err)
        | _ => none
      | none => none

/-- The steps that let the fallback goroutine finish from the state `s`. -/
def fallbackSteps (s : State) : List Action :=
  (if s.fallbackAssigned then [] else [.fallbackDial])
    ++ (if s.fallbackDone then [] else [.fallbackClose])

/-- The steps that let the proxy goroutine finish from the state `s`. -/
def proxySteps (s : State) : List Action :=
  (if s.proxyAssigned then [] else [.proxyDial])
    ++ (if s.proxyDone then [] else [.proxyClose])

/-- A schedule that brings the function to its return from the state `s`. -/
def finish (pr : DialResult) (s : State) : List Action :=
  match s.main with
  | .returned _ _ => []
  | .waitFallback => fallbackSteps s ++ [.main]
  | .waitProxy =>
    proxySteps s ++ [.main] ++ (if pr.err.isNone then [] else fallbackSteps s ++ [.main])

/-- What holds in every state that a schedule reaches from `State.init`. -/
def Inv (pr fr : DialResult) (s : State) : Prop :=
  (s.proxyAssigned = true → s.proxyConn = pr.conn ∧ s.proxyErr = pr.err)
  ∧ (s.proxyDone = true → s.proxyAssigned = true)
  ∧ (s.fallbackAssigned = true → s.fallbackConn = fr.conn ∧ s.fallbackErr = fr.err)
  ∧ (s.fallbackDone = true → s.fallbackAssigned = true)
  ∧ (s.main = .waitFallback → pr.err.isNone = false)
  ∧ (∀ conn err, s.main = .returned conn err →
      (conn, err) = if pr.err.isNone then (pr.conn, none) else (fr.conn, fr.err))

end Dialer

namespace Keyer

/-! ## Parsers on generated keys -/

/-- The operation returned a value: it did not panic. -/
def Succeeds {α : Type} (r : Except Failure α) : Prop := ∃ v, r = .ok v

namespace GenCall

/-- The length of the fixed header of the keys of the kind of the call: the
sum of the field lengths that its generator adds up before the name or hash. -/
def headerLen : GenCall → Nat
  | deviceFile _ _ _ => keyPrefixLen + keyFolderLen + keyDeviceLen
  | globalVersion _ _ => keyPrefixLen + keyFolderLen
  | blockMap _ _ _ => keyPrefixLen + keyFolderLen + keyHashLen
  | needFile _ _ => keyPrefixLen + keyFolderLen
  | sequence _ _ => keyPrefixLen + keyFolderLen + keySequenceLen
  | indexID _ _ => keyPrefixLen + keyDeviceLen + keyFolderLen
  | mtimes _ => keyPrefixLen + keyFolderLen
  | folderMeta _ => keyPrefixLen + keyFolderLen
  | blockList _ => keyPrefixLen

/-- Every parser and prefix helper that the keyer declares for the kind of the
call returns a value on `key`. -/
def parsersOk {σ : Type} (ix : smallIndex σ) (k : defaultKeyer σ) (key : Slice) :
    GenCall → Prop
  | deviceFile _ _ _ =>
    Succeeds (NameFromDeviceFileKey key) ∧ Succeeds (DeviceFromDeviceFileKey ix k key)
      ∧ Succeeds (FolderFromDeviceFileKey ix k key) ∧ Succeeds (WithoutNameAndDevice key)
  | globalVersion _ _ =>
    Succeeds (NameFromGlobalVersionKey key) ∧ Succeeds (FolderFromGlobalVersionKey ix k key)
      ∧ Succeeds (globalVersionKey.WithoutName key)
  | blockMap _ _ _ => Succeeds (NameFromBlockMapKey key) ∧ Succeeds (WithoutHashAndName key)
  | needFile _ _ => Succeeds (needFileKey.WithoutName key)
  | sequence _ _ => Succeeds (SequenceFromSequenceKey key) ∧ Succeeds (WithoutSequence key)
  | indexID _ _ => Succeeds (DeviceFromIndexIDKey ix k key)
  | mtimes _ => True
  | folderMeta _ => True
  | blockList _ => Succeeds (BlocksHash key)

end GenCall

/-! ## Auxiliary facts on slices -/

theorem split_length {L : List Nat} {n m : Nat} (h : L.length = n + m) :
    ∃ A B, L = A ++ B ∧ A.length = n ∧ B.length = m :=
  ⟨L.take n, L.drop n, (List.take_append_drop n L).symm, by simp [h], by simp [h]⟩

theorem be32_length (v : Nat) : (be32 v).length = 4 := rfl

theorem be64_length (v : Nat) : (be64 v).length = 8 := rfl

theorem resize_elems_length (bs : Slice) (size : Nat) :
    (resize bs size).elems.length = size := by
  unfold resize
  split
  · simp [Slice.make]
  · rename_i h
    simp only [Slice.cap] at h
    simp [Slice.upTo]
    omega

theorem resize_nil (size : Nat) : resize Slice.nil size = ⟨List.replicate size 0, []⟩ := by
  unfold resize Slice.nil Slice.cap Slice.make Slice.upTo
  cases size <;> simp

theorem setIndex_zero (a v : Nat) (D sp : List Nat) :
    Slice.setIndex ⟨a :: D, sp⟩ 0 v = .ok ⟨v :: D, sp⟩ := by
  simp [Slice.setIndex, Slice.len]

theorem writeFrom_PutUint32 (A C D sp : List Nat) (lo v : Nat)
    (hA : A.length = lo) (hC : C.length = 4) :
    Slice.writeFrom ⟨A ++ (C ++ D), sp⟩ lo (fun b => PutUint32 b v)
      = .ok ⟨A ++ (be32 v ++ D), sp⟩ := by
  subst hA
  simp [Slice.writeFrom, Slice.sliceFrom, Slice.len, PutUint32, hC]

theorem writeFrom_PutUint64 (A C D sp : List Nat) (lo v : Nat)
    (hA : A.length = lo) (hC : C.length = 8) :
    Slice.writeFrom ⟨A ++ (C ++ D), sp⟩ lo (fun b => PutUint64 b v)
      = .ok ⟨A ++ (be64 v ++ D), sp⟩ := by
  subst hA
  simp [Slice.writeFrom, Slice.sliceFrom, Slice.len, PutUint64, hC]

theorem writeFrom_copy (A C D sp : List Nat) (lo : Nat) (src : Bytes)
    (hA : A.length = lo) (hC : C.length = src.length) :
    Slice.writeFrom ⟨A ++ (C ++ D), sp⟩ lo (fun b => .ok (b.copy src))
      = .ok ⟨A ++ (src ++ D), sp⟩ := by
  subst hA
  simp [Slice.writeFrom, Slice.sliceFrom, Slice.len, Slice.copy, hC]

theorem sliceFrom_append (A B sp : List Nat) (lo : Nat) (hA : A.length = lo) :
    Slice.sliceFrom ⟨A ++ B, sp⟩ lo = .ok ⟨B, sp⟩ := by
  subst hA
  simp [Slice.sliceFrom, Slice.len]

theorem sliceRange_append (A B C sp : List Nat) (lo hi : Nat) (hA : A.length = lo)
    (hB : A.length + B.length = hi) :
    Slice.sliceRange ⟨A ++ (B ++ C), sp⟩ lo hi = .ok ⟨B, C ++ sp⟩ := by
  subst hA hB
  have h1 : (A ++ (B ++ C) ++ sp) = (A ++ B) ++ (C ++ sp) := by simp
  have h2 : (A ++ B).length = A.length + B.length := by simp
  simp only [Slice.sliceRange, Slice.cap, h1, ← h2, List.take_left, List.drop_left]
  rw [if_pos (by simp; omega)]

theorem Uint32_be32 (v : Nat) (D sp : List Nat) (hv : v < 2 ^ 32) :
    Uint32 ⟨be32 v ++ D, sp⟩ = .ok v := by
  simp only [Uint32, be32, List.cons_append, List.nil_append, Except.ok.injEq]
  omega

theorem Uint64_be64 (v : Nat) (D sp : List Nat) (hv : v < 2 ^ 64) :
    Uint64 ⟨be64 v ++ D, sp⟩ = .ok v := by
  simp only [Uint64, be64, List.cons_append, List.nil_append, Except.ok.injEq]
  omega

theorem int64_uint64 (seq : Int) (hlo : -2 ^ 63 ≤ seq) (hhi : seq < 2 ^ 63) :
    int64 (uint64 seq) = seq := by
  unfold int64 uint64
  split <;> omega

theorem uint64_lt (seq : Int) : uint64 seq < 2 ^ 64 := by
  unfold uint64
  omega

/-- Every buffer resized to `1 + n` bytes is a first byte followed by `n` bytes. -/
theorem resize_cons (buf : Slice) (n : Nat) :
    ∃ a R sp, resize buf (1 + n) = ⟨a :: R, sp⟩ ∧ R.length = n := by
  have h := resize_elems_length buf (1 + n)
  rcases hr : resize buf (1 + n) with ⟨L, sp⟩
  rw [hr] at h
  cases L with
  | nil => simp at h; omega
  | cons a R => exact ⟨a, R, sp, rfl, by simp at h; omega⟩

/-- Shape of a generated device file key, for any supplied buffer. -/
theorem GenerateDeviceFileKey_shape {σ : Type} (ix : smallIndex σ) (k : defaultKeyer σ)
    (buf : Slice) (folder device name : Bytes) (fid did : Nat) (sF sD : σ)
    (hF : ix.ID k.folderIdx folder = (.ok fid, sF))
    (hD : ix.ID k.deviceIdx device = (.ok did, sD)) :
    ∃ sp, GenerateDeviceFileKey ix k buf folder device name
      = (.ok ⟨KeyTypeDevice :: (be32 fid ++ (be32 did ++ name)), sp⟩, ⟨sF, sD⟩) := by
  obtain ⟨a, R, sp, hr, hR⟩ := resize_cons buf (4 + 4 + name.length)
  obtain ⟨F, R₁, rfl, hFl, hR₁⟩ := split_length (n := 4) (m := 4 + name.length) (by omega : R.length = _)
  obtain ⟨D, N, rfl, hDl, hN⟩ := split_length hR₁
  refine ⟨sp, ?_⟩
  have e1 : keyPrefixLen + keyFolderLen + keyDeviceLen + name.length = 1 + (4 + 4 + name.length) := by
    simp [keyPrefixLen, keyFolderLen, keyDeviceLen]; omega
  simp only [GenerateDeviceFileKey, hF, hD, e1, hr, bind, Except.bind, setIndex_zero]
  have s1 := writeFrom_PutUint32 [KeyTypeDevice] F (D ++ N) sp keyPrefixLen fid rfl hFl
  simp only [List.singleton_append] at s1
  simp only [s1]
  have s2 := writeFrom_PutUint32 (KeyTypeDevice :: be32 fid) D N sp (keyPrefixLen + keyFolderLen)
    did rfl hDl
  simp only [List.cons_append] at s2
  simp only [s2]
  have s3 := writeFrom_copy (KeyTypeDevice :: (be32 fid ++ be32 did)) N [] sp
    (keyPrefixLen + keyFolderLen + keyDeviceLen) name rfl hN
  simp only [List.cons_append, List.append_assoc, List.append_nil] at s3
  simp only [s3]

theorem writeFrom_copy_length (A B sp : List Nat) (lo : Nat) (src : Bytes)
    (hA : A.length = lo) :
    ∃ B', Slice.writeFrom ⟨A ++ B, sp⟩ lo (fun b => .ok (b.copy src)) = .ok ⟨A ++ B', sp⟩
      ∧ B'.length = B.length ∧ (src.length = B.length → B' = src) := by
  subst hA
  refine ⟨src.take (min B.length src.length) ++ B.drop (min B.length src.length), ?_, ?_, ?_⟩
  · simp [Slice.writeFrom, Slice.sliceFrom, Slice.len, Slice.copy]
  · simp
  · intro h; simp [h]

/-- The first `keyPrefixLen + keyFolderLen` bytes of a key that starts with a
type byte and a big-endian handle. -/
theorem sliceTo_header (t v : Nat) (R sp : List Nat) :
    Slice.sliceTo ⟨t :: (be32 v ++ R), sp⟩ (keyPrefixLen + keyFolderLen)
      = .ok ⟨t :: be32 v, R ++ sp⟩ := by
  simp [Slice.sliceTo, Slice.cap, Slice.upTo, be32, keyPrefixLen, keyFolderLen]
  omega

/-- Shape of a generated global version key, for any supplied buffer. -/
theorem GenerateGlobalVersionKey_shape {σ : Type} (ix : smallIndex σ) (k : defaultKeyer σ)
    (buf : Slice) (folder name : Bytes) (fid : Nat) (sF : σ)
    (hF : ix.ID k.folderIdx folder = (.ok fid, sF)) :
    ∃ sp, GenerateGlobalVersionKey ix k buf folder name
      = (.ok ⟨KeyTypeGlobal :: (be32 fid ++ name), sp⟩, ⟨sF, k.deviceIdx⟩) := by
  obtain ⟨a, R, sp, hr, hR⟩ := resize_cons buf (4 + name.length)
  obtain ⟨F, N, rfl, hFl, hN⟩ := split_length hR
  refine ⟨sp, ?_⟩
  have e1 : keyPrefixLen + keyFolderLen + name.length = 1 + (4 + name.length) := by
    simp [keyPrefixLen, keyFolderLen]; omega
  simp only [GenerateGlobalVersionKey, hF, e1, hr, bind, Except.bind, setIndex_zero]
  have s1 := writeFrom_PutUint32 [KeyTypeGlobal] F N sp keyPrefixLen fid rfl hFl
  simp only [List.singleton_append] at s1
  simp only [s1]
  have s2 := writeFrom_copy (KeyTypeGlobal :: be32 fid) N [] sp (keyPrefixLen + keyFolderLen)
    name rfl hN
  simp only [List.cons_append, List.append_nil] at s2
  simp only [s2]

/-- Shape of a generated need file key, for any supplied buffer. -/
theorem GenerateNeedFileKey_shape {σ : Type} (ix : smallIndex σ) (k : defaultKeyer σ)
    (buf : Slice) (folder name : Bytes) (fid : Nat) (sF : σ)
    (hF : ix.ID k.folderIdx folder = (.ok fid, sF)) :
    ∃ sp, GenerateNeedFileKey ix k buf folder name
      = (.ok ⟨KeyTypeNeed :: (be32 fid ++ name), sp⟩, ⟨sF, k.deviceIdx⟩) := by
  obtain ⟨a, R, sp, hr, hR⟩ := resize_cons buf (4 + name.length)
  obtain ⟨F, N, rfl, hFl, hN⟩ := split_length hR
  refine ⟨sp, ?_⟩
  have e1 : keyPrefixLen + keyFolderLen + name.length = 1 + (4 + name.length) := by
    simp [keyPrefixLen, keyFolderLen]; omega
  simp only [GenerateNeedFileKey, hF, e1, hr, bind, Except.bind, setIndex_zero]
  have s1 := writeFrom_PutUint32 [KeyTypeNeed] F N sp keyPrefixLen fid rfl hFl
  simp only [List.singleton_append] at s1
  simp only [s1]
  have s2 := writeFrom_copy (KeyTypeNeed :: be32 fid) N [] sp (keyPrefixLen + keyFolderLen)
    name rfl hN
  simp only [List.cons_append, List.append_nil] at s2
  simp only [s2]

/-- Shape of a generated block map key, for any supplied buffer and a hash of
any length: the 32 bytes after the folder handle are the hash when the hash
has 32 bytes. -/
theorem GenerateBlockMapKey_shape {σ : Type} (ix : smallIndex σ) (k : defaultKeyer σ)
    (buf : Slice) (folder hash name : Bytes) (fid : Nat) (sF : σ)
    (hF : ix.ID k.folderIdx folder = (.ok fid, sF)) :
    ∃ H sp, GenerateBlockMapKey ix k buf folder hash name
      = (.ok ⟨KeyTypeBlock :: (be32 fid ++ (H ++ name)), sp⟩, ⟨sF, k.deviceIdx⟩)
      ∧ H.length = keyHashLen ∧ (hash.length = keyHashLen → H = hash) := by
  obtain ⟨a, R, sp, hr, hR⟩ := resize_cons buf (4 + (32 + name.length))
  obtain ⟨F, B, rfl, hFl, hB⟩ := split_length hR
  have e1 : keyPrefixLen + keyFolderLen + keyHashLen + name.length
      = 1 + (4 + (32 + name.length)) := by
    simp [keyPrefixLen, keyFolderLen, keyHashLen]; omega
  have s1 := writeFrom_PutUint32 [KeyTypeBlock] F B sp keyPrefixLen fid rfl hFl
  simp only [List.singleton_append] at s1
  obtain ⟨B', s2, hB', -⟩ := writeFrom_copy_length (KeyTypeBlock :: be32 fid) B sp
    (keyPrefixLen + keyFolderLen) hash rfl
  simp only [List.cons_append] at s2
  obtain ⟨H, N, rfl, hH, hN⟩ := split_length (n := 32) (m := name.length) (by omega : B'.length = _)
  have s3 := writeFrom_copy (KeyTypeBlock :: (be32 fid ++ H)) N [] sp
    (keyPrefixLen + keyFolderLen + keyHashLen) name (by simp [be32, hH]; rfl) hN
  simp only [List.cons_append, List.append_assoc, List.append_nil] at s3
  refine ⟨H, sp, ?_, hH, ?_⟩
  · simp only [GenerateBlockMapKey, hF, e1, hr, bind, Except.bind, setIndex_zero, s1, s2, s3]
  · intro h32
    have s2' : Slice.writeFrom ⟨KeyTypeBlock :: (be32 fid ++ B), sp⟩ (keyPrefixLen + keyFolderLen)
        (fun b => .ok (b.copy hash))
        = .ok ⟨KeyTypeBlock :: (be32 fid ++ (hash ++ B.drop 32)), sp⟩ := by
      have hsplit : B = B.take 32 ++ B.drop 32 := (List.take_append_drop 32 B).symm
      have := writeFrom_copy (KeyTypeBlock :: be32 fid) (B.take 32) (B.drop 32) sp
        (keyPrefixLen + keyFolderLen) hash rfl (by simp [hB, h32, keyHashLen])
      simp only [List.cons_append] at this
      rw [← hsplit] at this
      exact this
    rw [s2] at s2'
    simp only [Except.ok.injEq, Slice.mk.injEq, List.cons.injEq, true_and, and_true] at s2'
    have := List.append_cancel_left s2'
    have hl : H.length = hash.length := by rw [hH, h32]; rfl
    exact (List.append_inj this hl).1

/-- Shape of a generated sequence key, for any supplied buffer. -/
theorem GenerateSequenceKey_shape {σ : Type} (ix : smallIndex σ) (k : defaultKeyer σ)
    (buf : Slice) (folder : Bytes) (seq : Int) (fid : Nat) (sF : σ)
    (hF : ix.ID k.folderIdx folder = (.ok fid, sF)) :
    ∃ sp, GenerateSequenceKey ix k buf folder seq
      = (.ok ⟨KeyTypeSequence :: (be32 fid ++ be64 (uint64 seq)), sp⟩, ⟨sF, k.deviceIdx⟩) := by
  obtain ⟨a, R, sp, hr, hR⟩ := resize_cons buf (4 + 8)
  obtain ⟨F, N, rfl, hFl, hN⟩ := split_length hR
  refine ⟨sp, ?_⟩
  have e1 : keyPrefixLen + keyFolderLen + keySequenceLen = 1 + (4 + 8) := rfl
  simp only [GenerateSequenceKey, hF, e1, hr, bind, Except.bind, setIndex_zero]
  have s1 := writeFrom_PutUint32 [KeyTypeSequence] F N sp keyPrefixLen fid rfl hFl
  simp only [List.singleton_append] at s1
  simp only [s1]
  have s2 := writeFrom_PutUint64 (KeyTypeSequence :: be32 fid) N [] sp
    (keyPrefixLen + keyFolderLen) (uint64 seq) rfl hN
  simp only [List.cons_append, List.append_nil] at s2
  simp only [s2]

/-- Shape of a generated index ID key, for any supplied buffer. -/
theorem GenerateIndexIDKey_shape {σ : Type} (ix : smallIndex σ) (k : defaultKeyer σ)
    (buf : Slice) (device folder : Bytes) (did fid : Nat) (sD sF : σ)
    (hD : ix.ID k.deviceIdx device = (.ok did, sD))
    (hF : ix.ID k.folderIdx folder = (.ok fid, sF)) :
    ∃ sp, GenerateIndexIDKey ix k buf device folder
      = (.ok ⟨KeyTypeIndexID :: (be32 did ++ be32 fid), sp⟩, ⟨sF, sD⟩) := by
  obtain ⟨a, R, sp, hr, hR⟩ := resize_cons buf (4 + 4)
  obtain ⟨D, N, rfl, hDl, hN⟩ := split_length hR
  refine ⟨sp, ?_⟩
  have e1 : keyPrefixLen + keyDeviceLen + keyFolderLen = 1 + (4 + 4) := rfl
  simp only [GenerateIndexIDKey, hF, hD, e1, hr, bind, Except.bind, setIndex_zero]
  have s1 := writeFrom_PutUint32 [KeyTypeIndexID] D N sp keyPrefixLen did rfl hDl
  simp only [List.singleton_append] at s1
  simp only [s1]
  have s2 := writeFrom_PutUint32 (KeyTypeIndexID :: be32 did) N [] sp
    (keyPrefixLen + keyDeviceLen) fid rfl hN
  simp only [List.cons_append, List.append_nil] at s2
  simp only [s2]

/-- Shape of a generated block list key, for any supplied buffer. -/
theorem GenerateBlockListKey_shape (buf : Slice) (hash : Bytes) :
    ∃ sp, GenerateBlockListKey buf hash = .ok ⟨KeyTypeBlockList :: hash, sp⟩ := by
  obtain ⟨a, R, sp, hr, hR⟩ := resize_cons buf hash.length
  refine ⟨sp, ?_⟩
  have e1 : keyPrefixLen + hash.length = 1 + hash.length := rfl
  simp only [GenerateBlockListKey, e1, hr, bind, Except.bind, setIndex_zero]
  have s2 := writeFrom_copy [KeyTypeBlockList] R [] sp keyPrefixLen hash rfl hR
  simp only [List.singleton_append, List.append_nil] at s2
  simp only [s2]

/-- Reading the handle that follows the type byte. -/
theorem Uint32_after_type (t v : Nat) (R sp : List Nat) (hv : v < 2 ^ 32) :
    (do let b ← Slice.sliceFrom ⟨t :: (be32 v ++ R), sp⟩ keyPrefixLen; Uint32 b) = .ok v := by
  have h := sliceFrom_append [t] (be32 v ++ R) sp keyPrefixLen rfl
  simp only [List.singleton_append] at h
  simp only [h, bind, Except.bind, Uint32_be32 v R sp hv]

/-- Reading the second handle of a key with two handles. -/
theorem Uint32_after_handle (t v w : Nat) (R sp : List Nat) (hw : w < 2 ^ 32) :
    (do let b ← Slice.sliceFrom ⟨t :: (be32 v ++ (be32 w ++ R)), sp⟩ (keyPrefixLen + keyFolderLen)
        Uint32 b) = .ok w := by
  have h := sliceFrom_append (t :: be32 v) (be32 w ++ R) sp (keyPrefixLen + keyFolderLen) rfl
  simp only [List.cons_append] at h
  simp only [h, bind, Except.bind, Uint32_be32 w R sp hw]

/-! ## Round trips -/

/-- C1. Device key round trip: when the folder and device interners return the
32-bit handles `fid` and `did` for `folder` and `device`, and `Val` of each
handle gives back `(x, true)`, then for every name (the empty one included) and
every supplied buffer (nil included) `GenerateDeviceFileKey` returns a key from
which `FolderFromDeviceFileKey`, `DeviceFromDeviceFileKey` and
`NameFromDeviceFileKey` recover `(folder, true)`, `(device, true)` and `name`. -/
theorem deviceFileKey_roundtrip {σ : Type} (ix : smallIndex σ) (k : defaultKeyer σ)
    (buf : Slice) (folder device name : Bytes) (fid did : Nat) (sF sD : σ)
    (hF : ix.ID k.folderIdx folder = (.ok fid, sF))
    (hD : ix.ID k.deviceIdx device = (.ok did, sD))
    (hfid : fid < 2 ^ 32) (hdid : did < 2 ^ 32)
    (hVF : ix.Val sF fid = (folder, true)) (hVD : ix.Val sD did = (device, true)) :
    ∃ key k', GenerateDeviceFileKey ix k buf folder device name = (.ok key, k')
      ∧ FolderFromDeviceFileKey ix k' key = .ok (folder, true)
      ∧ DeviceFromDeviceFileKey ix k' key = .ok (device, true)
      ∧ ∃ nm, NameFromDeviceFileKey key = .ok nm ∧ nm.elems = name := by
  obtain ⟨sp, hk⟩ := GenerateDeviceFileKey_shape ix k buf folder device name fid did sF sD hF hD
  refine ⟨_, _, hk, ?_, ?_, ⟨name, sp⟩, ?_, rfl⟩
  · have h := Uint32_after_type KeyTypeDevice fid (be32 did ++ name) sp hfid
    simp only [bind, Except.bind] at h
    simp only [FolderFromDeviceFileKey, bind, Except.bind]
    split at h
    · exact absurd h (by simp)
    · rename_i b hb
      simp only [hb, h, pure, Except.pure, hVF]
  · have h := Uint32_after_handle KeyTypeDevice fid did name sp hdid
    simp only [bind, Except.bind] at h
    simp only [DeviceFromDeviceFileKey, bind, Except.bind]
    split at h
    · exact absurd h (by simp)
    · rename_i b hb
      simp only [hb, h, pure, Except.pure, hVD]
  · have h := sliceFrom_append (KeyTypeDevice :: (be32 fid ++ be32 did)) name sp
      (keyPrefixLen + keyFolderLen + keyDeviceLen) rfl
    simpa [NameFromDeviceFileKey] using h

/-- Witness of C1 on a fresh store, with the nil buffer. -/
theorem deviceFileKey_roundtrip_witness :
    ∃ key k', GenerateDeviceFileKey specIndex freshKeyer Slice.nil [102, 108] [100] [110, 97]
        = (.ok key, k')
      ∧ FolderFromDeviceFileKey specIndex k' key = .ok ([102, 108], true)
      ∧ DeviceFromDeviceFileKey specIndex k' key = .ok ([100], true)
      ∧ ∃ nm, NameFromDeviceFileKey key = .ok nm ∧ nm.elems = [110, 97] :=
  deviceFileKey_roundtrip specIndex freshKeyer Slice.nil [102, 108] [100] [110, 97] 0 0
    ⟨[[102, 108]], true⟩ ⟨[[100]], true⟩ rfl rfl (by decide) (by decide) rfl rfl

/-- C2. Global version key round trip: when the folder interner returns the
32-bit handle `fid` for `folder` and `Val` of it gives back `(folder, true)`,
then for every name and every supplied buffer (nil included)
`GenerateGlobalVersionKey` returns a key from which
`FolderFromGlobalVersionKey` and `NameFromGlobalVersionKey` recover
`(folder, true)` and `name`. -/
theorem globalVersionKey_roundtrip {σ : Type} (ix : smallIndex σ) (k : defaultKeyer σ)
    (buf : Slice) (folder name : Bytes) (fid : Nat) (sF : σ)
    (hF : ix.ID k.folderIdx folder = (.ok fid, sF))
    (hfid : fid < 2 ^ 32) (hVF : ix.Val sF fid = (folder, true)) :
    ∃ key k', GenerateGlobalVersionKey ix k buf folder name = (.ok key, k')
      ∧ FolderFromGlobalVersionKey ix k' key = .ok (folder, true)
      ∧ ∃ nm, NameFromGlobalVersionKey key = .ok nm ∧ nm.elems = name := by
  obtain ⟨sp, hk⟩ := GenerateGlobalVersionKey_shape ix k buf folder name fid sF hF
  refine ⟨_, _, hk, ?_, ⟨name, sp⟩, ?_, rfl⟩
  · have h := Uint32_after_type KeyTypeGlobal fid name sp hfid
    simp only [bind, Except.bind] at h
    simp only [FolderFromGlobalVersionKey, bind, Except.bind]
    split at h
    · exact absurd h (by simp)
    · rename_i b hb
      simp only [hb, h, pure, Except.pure, hVF]
  · have h := sliceFrom_append (KeyTypeGlobal :: be32 fid) name sp
      (keyPrefixLen + keyFolderLen) rfl
    simpa [NameFromGlobalVersionKey] using h

/-- Witness of C2 on a fresh store, with the nil buffer. -/
theorem globalVersionKey_roundtrip_witness :
    ∃ key k', GenerateGlobalVersionKey specIndex freshKeyer Slice.nil [102, 108] [110, 97]
        = (.ok key, k')
      ∧ FolderFromGlobalVersionKey specIndex k' key = .ok ([102, 108], true)
      ∧ ∃ nm, NameFromGlobalVersionKey key = .ok nm ∧ nm.elems = [110, 97] :=
  globalVersionKey_roundtrip specIndex freshKeyer Slice.nil [102, 108] [110, 97] 0
    ⟨[[102, 108]], true⟩ rfl (by decide) rfl

/-- C3. Sequence key round trip: when the folder interner returns a handle for
`folder`, then for every `int64` sequence number `seq` (zero, negative and the
largest included) and every supplied buffer (nil included)
`SequenceFromSequenceKey` of the key returned by `GenerateSequenceKey` is
`seq`: the passage through `uint64` and eight big-endian bytes does not mangle
the number. -/
theorem sequenceKey_roundtrip {σ : Type} (ix : smallIndex σ) (k : defaultKeyer σ)
    (buf : Slice) (folder : Bytes) (seq : Int) (fid : Nat) (sF : σ)
    (hF : ix.ID k.folderIdx folder = (.ok fid, sF))
    (hlo : -2 ^ 63 ≤ seq) (hhi : seq < 2 ^ 63) :
    ∃ key k', GenerateSequenceKey ix k buf folder seq = (.ok key, k')
      ∧ SequenceFromSequenceKey key = .ok seq := by
  obtain ⟨sp, hk⟩ := GenerateSequenceKey_shape ix k buf folder seq fid sF hF
  refine ⟨_, _, hk, ?_⟩
  have h := sliceFrom_append (KeyTypeSequence :: be32 fid) (be64 (uint64 seq)) sp
    (keyPrefixLen + keyFolderLen) rfl
  simp only [List.cons_append] at h
  have hu := Uint64_be64 (uint64 seq) [] sp (uint64_lt seq)
  simp only [List.append_nil] at hu
  simp only [SequenceFromSequenceKey, h, bind, Except.bind, hu, pure, Except.pure,
    int64_uint64 seq hlo hhi]

/-- Witness of C3: the smallest `int64` on a fresh store, with the nil buffer. -/
theorem sequenceKey_roundtrip_witness :
    ∃ key k', GenerateSequenceKey specIndex freshKeyer Slice.nil [102, 108] (-9223372036854775808)
        = (.ok key, k')
      ∧ SequenceFromSequenceKey key = .ok (-9223372036854775808) :=
  sequenceKey_roundtrip specIndex freshKeyer Slice.nil [102, 108] (-9223372036854775808) 0
    ⟨[[102, 108]], true⟩ rfl (by decide) (by decide)

/-- C4. Unknown handle is reported, not invented: on the reference interner,
for every global version key of at least 5 bytes whose bytes 1..4 decode,
big-endian, to a handle `h` that the folder interner has not assigned (the
handles assigned are those below the number of entries),
`FolderFromGlobalVersionKey` returns no value and `ok = false`. -/
theorem FolderFromGlobalVersionKey_unknown (k : defaultKeyer indexState) (key : Slice) (h : Nat)
    (hlen : 5 ≤ key.len)
    (hdec : Uint32 ⟨key.elems.drop 1, key.spare⟩ = .ok h)
    (hnew : k.folderIdx.vals.length ≤ h) :
    FolderFromGlobalVersionKey specIndex k key = .ok ([], false) := by
  have h1 : key.sliceFrom keyPrefixLen = .ok ⟨key.elems.drop 1, key.spare⟩ := by
    simp only [Slice.sliceFrom, keyPrefixLen, Slice.len] at hlen ⊢
    rw [if_pos (by omega)]
  have hv : k.folderIdx.vals[h]? = none := List.getElem?_eq_none hnew
  simp only [FolderFromGlobalVersionKey, h1, hdec, bind, Except.bind, pure, Except.pure,
    specIndex, hv]

/-- Witness of C4: the key `01 02 03 04 05` on a fresh store. -/
theorem FolderFromGlobalVersionKey_unknown_witness :
    FolderFromGlobalVersionKey specIndex freshKeyer ⟨[1, 2, 3, 4, 5], []⟩ = .ok ([], false) :=
  FolderFromGlobalVersionKey_unknown freshKeyer ⟨[1, 2, 3, 4, 5], []⟩ 33752069
    (by decide) rfl (by decide)

/-! ## Bit-exact layouts -/

/-- C5. Device key layout is bit-exact: when the interners return the 32-bit
handles `fid` and `did`, for every name and every supplied buffer
`GenerateDeviceFileKey` returns exactly the byte `0x00`, the four big-endian
bytes of `fid`, the four big-endian bytes of `did`, then the name bytes
unchanged, `9 + len(name)` bytes in all; and the extraction of `dump` recovers
`fid`, `did` and the name from that key. -/
theorem deviceFileKey_layout {σ : Type} (ix : smallIndex σ) (k : defaultKeyer σ)
    (buf : Slice) (folder device name : Bytes) (fid did : Nat) (sF sD : σ)
    (hF : ix.ID k.folderIdx folder = (.ok fid, sF))
    (hD : ix.ID k.deviceIdx device = (.ok did, sD))
    (hfid : fid < 2 ^ 32) (hdid : did < 2 ^ 32) :
    ∃ key k', GenerateDeviceFileKey ix k buf folder device name = (.ok key, k')
      ∧ key.elems = 0x00 :: (be32 fid ++ (be32 did ++ name))
      ∧ key.len = 9 + name.length
      ∧ dumpDevice key = .ok (fid, did, name) := by
  obtain ⟨sp, hk⟩ := GenerateDeviceFileKey_shape ix k buf folder device name fid did sF sD hF hD
  refine ⟨_, _, hk, rfl, ?_, ?_⟩
  · simp [Slice.len, be32_length]; omega
  · have h1 := sliceFrom_append [KeyTypeDevice] (be32 fid ++ (be32 did ++ name)) sp 1 rfl
    have h2 := sliceFrom_append (KeyTypeDevice :: be32 fid) (be32 did ++ name) sp (1 + 4) rfl
    have h3 := sliceFrom_append (KeyTypeDevice :: (be32 fid ++ be32 did)) name sp (1 + 4 + 4) rfl
    simp only [List.singleton_append, List.cons_append, List.append_assoc, List.nil_append]
      at h1 h2 h3
    simp only [dumpDevice, h1, h2, h3, bind, Except.bind, pure, Except.pure,
      Uint32_be32 fid _ sp hfid, Uint32_be32 did _ sp hdid]

/-- Witness of C5: second folder and third device of a store, dirty buffer. -/
theorem deviceFileKey_layout_witness :
    ∃ key k', GenerateDeviceFileKey specIndex ⟨⟨[[9]], true⟩, ⟨[[7], [8]], true⟩⟩
        ⟨[5, 5], [6, 6, 6, 6, 6, 6, 6, 6, 6, 6, 6, 6]⟩ [102] [100] [110, 97] = (.ok key, k')
      ∧ key.elems = 0x00 :: (be32 1 ++ (be32 2 ++ [110, 97]))
      ∧ key.len = 9 + [110, 97].length
      ∧ dumpDevice key = .ok (1, 2, [110, 97]) :=
  deviceFileKey_layout specIndex ⟨⟨[[9]], true⟩, ⟨[[7], [8]], true⟩⟩
    ⟨[5, 5], [6, 6, 6, 6, 6, 6, 6, 6, 6, 6, 6, 6]⟩ [102] [100] [110, 97] 1 2
    ⟨[[9], [102]], true⟩ ⟨[[7], [8], [100]], true⟩ rfl rfl (by decide) (by decide)

/-- C6. Block map key layout and name round trip: when the folder interner
returns the handle `fid`, for every 32-byte hash, every name and every supplied
buffer `GenerateBlockMapKey` returns exactly `0x02`, the four big-endian bytes
of `fid`, the 32 hash bytes, then the name bytes, `37 + len(name)` bytes in
all, and `NameFromBlockMapKey` of that key is the name; the extraction of
`dump` reads the same three fields back when the handle is a 32-bit one. -/
theorem blockMapKey_layout {σ : Type} (ix : smallIndex σ) (k : defaultKeyer σ)
    (buf : Slice) (folder hash name : Bytes) (fid : Nat) (sF : σ)
    (hF : ix.ID k.folderIdx folder = (.ok fid, sF))
    (hhash : hash.length = 32) :
    ∃ key k', GenerateBlockMapKey ix k buf folder hash name = (.ok key, k')
      ∧ key.elems = 0x02 :: (be32 fid ++ (hash ++ name))
      ∧ key.len = 37 + name.length
      ∧ (∃ nm, NameFromBlockMapKey key = .ok nm ∧ nm.elems = name)
      ∧ (fid < 2 ^ 32 → dumpBlock key = .ok (fid, hash, name)) := by
  obtain ⟨H, sp, hk, hH, hHh⟩ := GenerateBlockMapKey_shape ix k buf folder hash name fid sF hF
  obtain rfl := hHh hhash
  have h3 := sliceFrom_append (KeyTypeBlock :: (be32 fid ++ H)) name sp
    (keyPrefixLen + keyFolderLen + keyHashLen) (by simp [be32_length, hhash]; rfl)
  simp only [List.cons_append, List.append_assoc] at h3
  refine ⟨_, _, hk, rfl, ?_, ⟨⟨name, sp⟩, ?_, rfl⟩, ?_⟩
  · simp [Slice.len, be32_length, hhash]; omega
  · exact h3
  · intro hfid
    have h1 := sliceFrom_append [KeyTypeBlock] (be32 fid ++ (H ++ name)) sp 1 rfl
    have h2 := sliceRange_append (KeyTypeBlock :: be32 fid) H name sp (1 + 4) (1 + 4 + 32) rfl
      (by simp [be32_length, hhash])
    simp only [List.singleton_append, List.cons_append, List.nil_append] at h1 h2
    have h3' : Slice.sliceFrom ⟨KeyTypeBlock :: (be32 fid ++ (H ++ name)), sp⟩ (1 + 4 + 32)
        = .ok ⟨name, sp⟩ := h3
    simp only [dumpBlock, h1, h2, h3', bind, Except.bind, pure, Except.pure,
      Uint32_be32 fid _ sp hfid]

/-- Witness of C6 on a fresh store, with the nil buffer. -/
theorem blockMapKey_layout_witness :
    ∃ key k', GenerateBlockMapKey specIndex freshKeyer Slice.nil [102]
        (List.range 32) [110, 97] = (.ok key, k')
      ∧ key.elems = 0x02 :: (be32 0 ++ (List.range 32 ++ [110, 97]))
      ∧ key.len = 37 + [110, 97].length
      ∧ (∃ nm, NameFromBlockMapKey key = .ok nm ∧ nm.elems = [110, 97])
      ∧ (0 < 2 ^ 32 → dumpBlock key = .ok (0, List.range 32, [110, 97])) :=
  blockMapKey_layout specIndex freshKeyer Slice.nil [102] (List.range 32) [110, 97] 0
    ⟨[[102]], true⟩ rfl (by decide)

/-- C7. Index-ID key layout and device round trip: when the interners return
the 32-bit handles `did` and `fid`, for every supplied buffer
`GenerateIndexIDKey` returns exactly 9 bytes: `0x08`, the four big-endian bytes
of the device handle, then the four big-endian bytes of the folder handle; and
when `Val` of the device handle gives back `(device, true)`,
`DeviceFromIndexIDKey` of that key is `(device, true)`; the extraction of
`dump` reads the device handle first and, when it is a 32-bit one, the folder
handle second. -/
theorem indexIDKey_layout {σ : Type} (ix : smallIndex σ) (k : defaultKeyer σ)
    (buf : Slice) (device folder : Bytes) (did fid : Nat) (sD sF : σ)
    (hD : ix.ID k.deviceIdx device = (.ok did, sD))
    (hF : ix.ID k.folderIdx folder = (.ok fid, sF))
    (hdid : did < 2 ^ 32)
    (hVD : ix.Val sD did = (device, true)) :
    ∃ key k', GenerateIndexIDKey ix k buf device folder = (.ok key, k')
      ∧ key.elems = 0x08 :: (be32 did ++ be32 fid)
      ∧ key.len = 9
      ∧ DeviceFromIndexIDKey ix k' key = .ok (device, true)
      ∧ (fid < 2 ^ 32 → dumpIndexID key = .ok (did, fid)) := by
  obtain ⟨sp, hk⟩ := GenerateIndexIDKey_shape ix k buf device folder did fid sD sF hD hF
  refine ⟨_, _, hk, rfl, rfl, ?_, ?_⟩
  · have h := Uint32_after_type KeyTypeIndexID did (be32 fid) sp hdid
    simp only [bind, Except.bind] at h
    simp only [DeviceFromIndexIDKey, bind, Except.bind]
    split at h
    · exact absurd h (by simp)
    · rename_i b hb
      simp only [hb, h, pure, Except.pure, hVD]
  · intro hfid
    have h1 := sliceFrom_append [KeyTypeIndexID] (be32 did ++ be32 fid) sp 1 rfl
    have h2 := sliceFrom_append (KeyTypeIndexID :: be32 did) (be32 fid) sp 5 rfl
    simp only [List.singleton_append, List.cons_append, List.nil_append] at h1 h2
    have hu := Uint32_be32 fid [] sp hfid
    simp only [List.append_nil] at hu
    simp only [dumpIndexID, h1, h2, bind, Except.bind, pure, Except.pure,
      Uint32_be32 did _ sp hdid, hu]

/-- Witness of C7: second device and first folder of a store, nil buffer. -/
theorem indexIDKey_layout_witness :
    ∃ key k', GenerateIndexIDKey specIndex ⟨⟨[], true⟩, ⟨[[7]], true⟩⟩ Slice.nil [100] [102]
        = (.ok key, k')
      ∧ key.elems = 0x08 :: (be32 1 ++ be32 0)
      ∧ key.len = 9
      ∧ DeviceFromIndexIDKey specIndex k' key = .ok ([100], true)
      ∧ (0 < 2 ^ 32 → dumpIndexID key = .ok (1, 0)) :=
  indexIDKey_layout specIndex ⟨⟨[], true⟩, ⟨[[7]], true⟩⟩ Slice.nil [100] [102] 1 0
    ⟨[[7], [100]], true⟩ ⟨[[102]], true⟩ rfl rfl (by decide) rfl

/-- C8. Block list key round trip: for every hash byte string of any length
(the empty one included) and every supplied buffer `GenerateBlockListKey`
returns exactly `0x0D` followed by the hash bytes, and `BlocksHash` of that key
is the hash. -/
theorem blockListKey_roundtrip (buf : Slice) (hash : Bytes) :
    ∃ key, GenerateBlockListKey buf hash = .ok key
      ∧ key.elems = 0x0D :: hash
      ∧ ∃ h, BlocksHash key = .ok h ∧ h.elems = hash := by
  obtain ⟨sp, hk⟩ := GenerateBlockListKey_shape buf hash
  refine ⟨_, hk, rfl, ⟨hash, sp⟩, ?_, rfl⟩
  have h := sliceFrom_append [KeyTypeBlockList] hash sp keyPrefixLen rfl
  simpa [BlocksHash] using h

/-! ## Prefixes -/

theorem be32_inj (v w : Nat) (hv : v < 2 ^ 32) (hw : w < 2 ^ 32) (h : be32 v = be32 w) :
    v = w := by
  have h1 := Uint32_be32 v [] [] hv
  rw [h, Uint32_be32 w [] [] hw] at h1
  exact (Except.ok.inj h1).symm

theorem prefix_append_iff (A B R : List Nat) (h : A.length = B.length) :
    A <+: B ++ R ↔ A = B := by
  constructor
  · intro hp
    exact (List.prefix_of_prefix_length_le hp (List.prefix_append B R) (le_of_eq h)).eq_of_length h
  · rintro rfl
    exact List.prefix_append _ _

/-- The prefix helper on a key that starts with a type byte and a handle. -/
theorem header_of_shape (t v : Nat) (R sp : List Nat) :
    ∃ p, Slice.sliceTo ⟨t :: (be32 v ++ R), sp⟩ (keyPrefixLen + keyFolderLen) = .ok p
      ∧ IsFolderHeader t v ⟨t :: (be32 v ++ R), sp⟩ p := by
  refine ⟨_, sliceTo_header t v R sp, ?_, ?_, rfl⟩
  · exact ⟨R, by simp⟩
  · simp [be32, keyPrefixLen, keyFolderLen]

/-- C9. Prefix containment: when the folder interner returns the handle `fid`
for `folder`, then for each of the device file, global version, block map,
need file and sequence generators, whatever the other fields and the supplied
buffer, the key it returns has its declared helper (`WithoutNameAndDevice`,
`WithoutName`, `WithoutHashAndName`, `WithoutName`, `WithoutSequence`) return a
byte prefix of the key, namely its first 5 bytes: the type byte followed by
the big-endian folder handle. -/
theorem prefix_containment {σ : Type} (ix : smallIndex σ) (k : defaultKeyer σ)
    (folder : Bytes) (fid : Nat) (sF : σ)
    (hF : ix.ID k.folderIdx folder = (.ok fid, sF)) :
    (∀ (buf : Slice) (device name : Bytes) (did : Nat) (sD : σ),
        ix.ID k.deviceIdx device = (.ok did, sD) →
        ∃ key k' p, GenerateDeviceFileKey ix k buf folder device name = (.ok key, k')
          ∧ WithoutNameAndDevice key = .ok p ∧ IsFolderHeader 0x00 fid key p)
    ∧ (∀ (buf : Slice) (name : Bytes),
        ∃ key k' p, GenerateGlobalVersionKey ix k buf folder name = (.ok key, k')
          ∧ globalVersionKey.WithoutName key = .ok p ∧ IsFolderHeader 0x01 fid key p)
    ∧ (∀ (buf : Slice) (hash name : Bytes),
        ∃ key k' p, GenerateBlockMapKey ix k buf folder hash name = (.ok key, k')
          ∧ WithoutHashAndName key = .ok p ∧ IsFolderHeader 0x02 fid key p)
    ∧ (∀ (buf : Slice) (name : Bytes),
        ∃ key k' p, GenerateNeedFileKey ix k buf folder name = (.ok key, k')
          ∧ needFileKey.WithoutName key = .ok p ∧ IsFolderHeader 0x0C fid key p)
    ∧ (∀ (buf : Slice) (seq : Int),
        ∃ key k' p, GenerateSequenceKey ix k buf folder seq = (.ok key, k')
          ∧ WithoutSequence key = .ok p ∧ IsFolderHeader 0x0B fid key p) := by
  refine ⟨?_, ?_, ?_, ?_, ?_⟩
  · intro buf device name did sD hD
    obtain ⟨sp, hk⟩ := GenerateDeviceFileKey_shape ix k buf folder device name fid did sF sD hF hD
    obtain ⟨p, hp, hh⟩ := header_of_shape KeyTypeDevice fid (be32 did ++ name) sp
    exact ⟨_, _, p, hk, hp, hh⟩
  · intro buf name
    obtain ⟨sp, hk⟩ := GenerateGlobalVersionKey_shape ix k buf folder name fid sF hF
    obtain ⟨p, hp, hh⟩ := header_of_shape KeyTypeGlobal fid name sp
    exact ⟨_, _, p, hk, hp, hh⟩
  · intro buf hash name
    obtain ⟨H, sp, hk, -, -⟩ := GenerateBlockMapKey_shape ix k buf folder hash name fid sF hF
    obtain ⟨p, hp, hh⟩ := header_of_shape KeyTypeBlock fid (H ++ name) sp
    exact ⟨_, _, p, hk, hp, hh⟩
  · intro buf name
    obtain ⟨sp, hk⟩ := GenerateNeedFileKey_shape ix k buf folder name fid sF hF
    obtain ⟨p, hp, hh⟩ := header_of_shape KeyTypeNeed fid name sp
    exact ⟨_, _, p, hk, hp, hh⟩
  · intro buf seq
    obtain ⟨sp, hk⟩ := GenerateSequenceKey_shape ix k buf folder seq fid sF hF
    obtain ⟨p, hp, hh⟩ := header_of_shape KeyTypeSequence fid (be64 (uint64 seq)) sp
    exact ⟨_, _, p, hk, hp, hh⟩

/-- Witness of C9: the sequence key of the second folder of a store. -/
theorem prefix_containment_witness :
    ∃ key k' p, GenerateSequenceKey specIndex ⟨⟨[[9]], true⟩, ⟨[], true⟩⟩ Slice.nil [102] 7
        = (.ok key, k')
      ∧ WithoutSequence key = .ok p ∧ IsFolderHeader 0x0B 1 key p :=
  (prefix_containment specIndex ⟨⟨[[9]], true⟩, ⟨[], true⟩⟩ [102] 1 ⟨[[9], [102]], true⟩
    rfl).2.2.2.2 Slice.nil 7

/-- C10. Folder prefix selects exactly one folder's device records: take two
device file keys, generated for `(f, d, n)` and for `(f', d', n')` on any
states and buffers, the folder interner returning the 32-bit handles `fid` and
`fid'`. When the handle of a folder is stable (`f = f'` gives `fid = fid'`) and
the interner is injective (`fid = fid'` gives `f = f'`),
`WithoutNameAndDevice` of the first key is a byte prefix of the second key if
and only if `f = f'`: always for the same folder, never for another one. -/
theorem folder_prefix_selects {σ : Type} (ix : smallIndex σ) (k₁ k₂ : defaultKeyer σ)
    (b₁ b₂ : Slice) (f d n f' d' n' : Bytes) (fid did fid' did' : Nat) (s₁ t₁ s₂ t₂ : σ)
    (hF₁ : ix.ID k₁.folderIdx f = (.ok fid, s₁)) (hD₁ : ix.ID k₁.deviceIdx d = (.ok did, t₁))
    (hF₂ : ix.ID k₂.folderIdx f' = (.ok fid', s₂)) (hD₂ : ix.ID k₂.deviceIdx d' = (.ok did', t₂))
    (hfid : fid < 2 ^ 32) (hfid' : fid' < 2 ^ 32)
    (hstable : f = f' → fid = fid') (hinj : fid = fid' → f = f') :
    ∃ key₁ k₁' key₂ k₂' p,
      GenerateDeviceFileKey ix k₁ b₁ f d n = (.ok key₁, k₁')
      ∧ GenerateDeviceFileKey ix k₂ b₂ f' d' n' = (.ok key₂, k₂')
      ∧ WithoutNameAndDevice key₁ = .ok p
      ∧ (p.elems <+: key₂.elems ↔ f = f') := by
  obtain ⟨sp₁, hk₁⟩ := GenerateDeviceFileKey_shape ix k₁ b₁ f d n fid did s₁ t₁ hF₁ hD₁
  obtain ⟨sp₂, hk₂⟩ := GenerateDeviceFileKey_shape ix k₂ b₂ f' d' n' fid' did' s₂ t₂ hF₂ hD₂
  refine ⟨_, _, _, _, _, hk₁, hk₂, sliceTo_header KeyTypeDevice fid (be32 did ++ n) sp₁, ?_⟩
  simp only [List.cons_prefix_cons, true_and]
  rw [prefix_append_iff _ _ _ (by simp [be32_length])]
  constructor
  · intro h
    exact hinj (be32_inj fid fid' hfid hfid' h)
  · intro h
    rw [hstable h]

/-- Witness of C10: two different folders, the second key generated on the
state the first call left. -/
theorem folder_prefix_selects_witness :
    ∃ key₁ k₁' key₂ k₂' p,
      GenerateDeviceFileKey specIndex freshKeyer Slice.nil [1] [9] [110] = (.ok key₁, k₁')
      ∧ GenerateDeviceFileKey specIndex ⟨⟨[[1]], true⟩, ⟨[[9]], true⟩⟩ Slice.nil [2] [9] [110]
          = (.ok key₂, k₂')
      ∧ WithoutNameAndDevice key₁ = .ok p
      ∧ (p.elems <+: key₂.elems ↔ ([1] : Bytes) = [2]) :=
  folder_prefix_selects specIndex freshKeyer ⟨⟨[[1]], true⟩, ⟨[[9]], true⟩⟩ Slice.nil Slice.nil
    [1] [9] [110] [2] [9] [110] 0 0 1 0 ⟨[[1]], true⟩ ⟨[[9]], true⟩ ⟨[[1], [2]], true⟩
    ⟨[[9]], true⟩ rfl rfl rfl rfl (by decide) (by decide) (by decide) (by decide)

/-! ## Order -/

theorem bytesLess_append_left (P a b : Bytes) :
    bytesLess (P ++ a) (P ++ b) = bytesLess a b := by
  induction P with
  | nil => rfl
  | cons p P ih => simp [bytesLess, ih]

/-- C11. Device keys of one device sort by name: for a fixed folder and device,
whose handles `fid` and `did` the interners return at both calls, and every two
names `n₁`, `n₂`, on any states and buffers, the key generated for `n₁` is
bytewise-lexicographically less than the key generated for `n₂` if and only if
`n₁` is bytewise-lexicographically less than `n₂`. -/
theorem deviceFileKey_order {σ : Type} (ix : smallIndex σ) (k₁ k₂ : defaultKeyer σ)
    (b₁ b₂ : Slice) (folder device n₁ n₂ : Bytes) (fid did : Nat) (s₁ t₁ s₂ t₂ : σ)
    (hF₁ : ix.ID k₁.folderIdx folder = (.ok fid, s₁))
    (hD₁ : ix.ID k₁.deviceIdx device = (.ok did, t₁))
    (hF₂ : ix.ID k₂.folderIdx folder = (.ok fid, s₂))
    (hD₂ : ix.ID k₂.deviceIdx device = (.ok did, t₂)) :
    ∃ key₁ k₁' key₂ k₂',
      GenerateDeviceFileKey ix k₁ b₁ folder device n₁ = (.ok key₁, k₁')
      ∧ GenerateDeviceFileKey ix k₂ b₂ folder device n₂ = (.ok key₂, k₂')
      ∧ (bytesLess key₁.elems key₂.elems = true ↔ bytesLess n₁ n₂ = true) := by
  obtain ⟨sp₁, hk₁⟩ := GenerateDeviceFileKey_shape ix k₁ b₁ folder device n₁ fid did s₁ t₁ hF₁ hD₁
  obtain ⟨sp₂, hk₂⟩ := GenerateDeviceFileKey_shape ix k₂ b₂ folder device n₂ fid did s₂ t₂ hF₂ hD₂
  refine ⟨_, _, _, _, hk₁, hk₂, ?_⟩
  have h := bytesLess_append_left (KeyTypeDevice :: (be32 fid ++ be32 did)) n₁ n₂
  simp only [List.cons_append, List.append_assoc] at h
  simp only [h]

/-- Witness of C11: the names `a` and `ab` of one device, the second key
generated on the state the first call left. -/
theorem deviceFileKey_order_witness :
    ∃ key₁ k₁' key₂ k₂',
      GenerateDeviceFileKey specIndex freshKeyer Slice.nil [102] [100] [97] = (.ok key₁, k₁')
      ∧ GenerateDeviceFileKey specIndex ⟨⟨[[102]], true⟩, ⟨[[100]], true⟩⟩ Slice.nil
          [102] [100] [97, 98] = (.ok key₂, k₂')
      ∧ (bytesLess key₁.elems key₂.elems = true ↔ bytesLess [97] [97, 98] = true) :=
  deviceFileKey_order specIndex freshKeyer ⟨⟨[[102]], true⟩, ⟨[[100]], true⟩⟩ Slice.nil Slice.nil
    [102] [100] [97] [97, 98] 0 0 ⟨[[102]], true⟩ ⟨[[100]], true⟩ ⟨[[102]], true⟩
    ⟨[[100]], true⟩ rfl rfl rfl rfl

/-! ## Type bytes -/

/-- Shape of a generated mtimes key, for any supplied buffer. -/
theorem GenerateMtimesKey_shape {σ : Type} (ix : smallIndex σ) (k : defaultKeyer σ)
    (buf : Slice) (folder : Bytes) (fid : Nat) (sF : σ)
    (hF : ix.ID k.folderIdx folder = (.ok fid, sF)) :
    ∃ sp, GenerateMtimesKey ix k buf folder
      = (.ok ⟨KeyTypeVirtualMtime :: be32 fid, sp⟩, ⟨sF, k.deviceIdx⟩) := by
  obtain ⟨a, R, sp, hr, hR⟩ := resize_cons buf 4
  refine ⟨sp, ?_⟩
  have e1 : keyPrefixLen + keyFolderLen = 1 + 4 := rfl
  simp only [GenerateMtimesKey, hF, e1, hr, bind, Except.bind, setIndex_zero]
  have s1 := writeFrom_PutUint32 [KeyTypeVirtualMtime] R [] sp keyPrefixLen fid rfl hR
  simp only [List.singleton_append, List.append_nil] at s1
  simp only [s1]

/-- Shape of a generated folder meta key, for any supplied buffer. -/
theorem GenerateFolderMetaKey_shape {σ : Type} (ix : smallIndex σ) (k : defaultKeyer σ)
    (buf : Slice) (folder : Bytes) (fid : Nat) (sF : σ)
    (hF : ix.ID k.folderIdx folder = (.ok fid, sF)) :
    ∃ sp, GenerateFolderMetaKey ix k buf folder
      = (.ok ⟨KeyTypeFolderMeta :: be32 fid, sp⟩, ⟨sF, k.deviceIdx⟩) := by
  obtain ⟨a, R, sp, hr, hR⟩ := resize_cons buf 4
  refine ⟨sp, ?_⟩
  have e1 : keyPrefixLen + keyFolderLen = 1 + 4 := rfl
  simp only [GenerateFolderMetaKey, hF, e1, hr, bind, Except.bind, setIndex_zero]
  have s1 := writeFrom_PutUint32 [KeyTypeFolderMeta] R [] sp keyPrefixLen fid rfl hR
  simp only [List.singleton_append, List.append_nil] at s1
  simp only [s1]

/-- A call whose interner lookups succeed returns a key, and the key starts
with the type byte of its kind. -/
theorem GenCall.run_ok {σ : Type} (ix : smallIndex σ) (k : defaultKeyer σ) (buf : Slice)
    (c : GenCall) (h : c.lookupsOk ix k) :
    ∃ key k' R, c.run ix k buf = (.ok key, k') ∧ key.elems = c.typeByte :: R := by
  obtain ⟨hf, hd⟩ := h
  cases c with
  | deviceFile folder device name =>
    obtain ⟨fid, sF, hF⟩ := hf folder rfl
    obtain ⟨did, sD, hD⟩ := hd device rfl
    obtain ⟨sp, hk⟩ := GenerateDeviceFileKey_shape ix k buf folder device name fid did sF sD hF hD
    exact ⟨_, _, _, hk, rfl⟩
  | globalVersion folder name =>
    obtain ⟨fid, sF, hF⟩ := hf folder rfl
    obtain ⟨sp, hk⟩ := GenerateGlobalVersionKey_shape ix k buf folder name fid sF hF
    exact ⟨_, _, _, hk, rfl⟩
  | blockMap folder hash name =>
    obtain ⟨fid, sF, hF⟩ := hf folder rfl
    obtain ⟨H, sp, hk, -, -⟩ := GenerateBlockMapKey_shape ix k buf folder hash name fid sF hF
    exact ⟨_, _, _, hk, rfl⟩
  | needFile folder name =>
    obtain ⟨fid, sF, hF⟩ := hf folder rfl
    obtain ⟨sp, hk⟩ := GenerateNeedFileKey_shape ix k buf folder name fid sF hF
    exact ⟨_, _, _, hk, rfl⟩
  | sequence folder seq =>
    obtain ⟨fid, sF, hF⟩ := hf folder rfl
    obtain ⟨sp, hk⟩ := GenerateSequenceKey_shape ix k buf folder seq fid sF hF
    exact ⟨_, _, _, hk, rfl⟩
  | indexID device folder =>
    obtain ⟨fid, sF, hF⟩ := hf folder rfl
    obtain ⟨did, sD, hD⟩ := hd device rfl
    obtain ⟨sp, hk⟩ := GenerateIndexIDKey_shape ix k buf device folder did fid sD sF hD hF
    exact ⟨_, _, _, hk, rfl⟩
  | mtimes folder =>
    obtain ⟨fid, sF, hF⟩ := hf folder rfl
    obtain ⟨sp, hk⟩ := GenerateMtimesKey_shape ix k buf folder fid sF hF
    exact ⟨_, _, _, hk, rfl⟩
  | folderMeta folder =>
    obtain ⟨fid, sF, hF⟩ := hf folder rfl
    obtain ⟨sp, hk⟩ := GenerateFolderMetaKey_shape ix k buf folder fid sF hF
    exact ⟨_, _, _, hk, rfl⟩
  | blockList hash =>
    obtain ⟨sp, hk⟩ := GenerateBlockListKey_shape buf hash
    exact ⟨⟨KeyTypeBlockList :: hash, sp⟩, k, hash, by simp only [GenCall.run, hk], rfl⟩

/-- A call that returns a key made all its interner lookups successfully. -/
theorem GenCall.lookupsOk_of_run {σ : Type} (ix : smallIndex σ) (k : defaultKeyer σ)
    (buf : Slice) (c : GenCall) (key : Slice) (k' : defaultKeyer σ)
    (h : c.run ix k buf = (.ok key, k')) : c.lookupsOk ix k := by
  cases c with
  | deviceFile folder device name =>
    simp only [GenCall.run, GenerateDeviceFileKey] at h
    rcases hF : ix.ID k.folderIdx folder with ⟨_ | fid, sF⟩
    · simp [hF] at h
    · rcases hD : ix.ID k.deviceIdx device with ⟨_ | did, sD⟩
      · simp [hF, hD] at h
      · refine ⟨?_, ?_⟩
        · intro f hf; cases hf; exact ⟨fid, sF, hF⟩
        · intro d hd; cases hd; exact ⟨did, sD, hD⟩
  | globalVersion folder name =>
    simp only [GenCall.run, GenerateGlobalVersionKey] at h
    rcases hF : ix.ID k.folderIdx folder with ⟨_ | fid, sF⟩
    · simp [hF] at h
    · exact ⟨fun f hf => by cases hf; exact ⟨fid, sF, hF⟩, fun d hd => by cases hd⟩
  | blockMap folder hash name =>
    simp only [GenCall.run, GenerateBlockMapKey] at h
    rcases hF : ix.ID k.folderIdx folder with ⟨_ | fid, sF⟩
    · simp [hF] at h
    · exact ⟨fun f hf => by cases hf; exact ⟨fid, sF, hF⟩, fun d hd => by cases hd⟩
  | needFile folder name =>
    simp only [GenCall.run, GenerateNeedFileKey] at h
    rcases hF : ix.ID k.folderIdx folder with ⟨_ | fid, sF⟩
    · simp [hF] at h
    · exact ⟨fun f hf => by cases hf; exact ⟨fid, sF, hF⟩, fun d hd => by cases hd⟩
  | sequence folder seq =>
    simp only [GenCall.run, GenerateSequenceKey] at h
    rcases hF : ix.ID k.folderIdx folder with ⟨_ | fid, sF⟩
    · simp [hF] at h
    · exact ⟨fun f hf => by cases hf; exact ⟨fid, sF, hF⟩, fun d hd => by cases hd⟩
  | indexID device folder =>
    simp only [GenCall.run, GenerateIndexIDKey] at h
    rcases hD : ix.ID k.deviceIdx device with ⟨_ | did, sD⟩
    · simp [hD] at h
    · rcases hF : ix.ID k.folderIdx folder with ⟨_ | fid, sF⟩
      · simp [hF, hD] at h
      · refine ⟨?_, ?_⟩
        · intro f hf; cases hf; exact ⟨fid, sF, hF⟩
        · intro d hd; cases hd; exact ⟨did, sD, hD⟩
  | mtimes folder =>
    simp only [GenCall.run, GenerateMtimesKey] at h
    rcases hF : ix.ID k.folderIdx folder with ⟨_ | fid, sF⟩
    · simp [hF] at h
    · exact ⟨fun f hf => by cases hf; exact ⟨fid, sF, hF⟩, fun d hd => by cases hd⟩
  | folderMeta folder =>
    simp only [GenCall.run, GenerateFolderMetaKey] at h
    rcases hF : ix.ID k.folderIdx folder with ⟨_ | fid, sF⟩
    · simp [hF] at h
    · exact ⟨fun f hf => by cases hf; exact ⟨fid, sF, hF⟩, fun d hd => by cases hd⟩
  | blockList hash =>
    exact ⟨fun f hf => (by cases hf), fun d hd => (by cases hd)⟩

/-- The first byte of every key a call returns is the type byte of its kind. -/
theorem GenCall.run_head {σ : Type} (ix : smallIndex σ) (k : defaultKeyer σ) (buf : Slice)
    (c : GenCall) (key : Slice) (k' : defaultKeyer σ)
    (h : c.run ix k buf = (.ok key, k')) : key.elems.head? = some c.typeByte := by
  obtain ⟨key₀, k₀, R, h₀, hR⟩ := GenCall.run_ok ix k buf c (GenCall.lookupsOk_of_run ix k buf c key k' h)
  rw [h] at h₀
  simp only [Prod.mk.injEq, Except.ok.injEq] at h₀
  rw [h₀.1, hR]
  rfl

/-- C12. Every generated key begins with the single type byte of its kind:
the fourteen key type constants are the codes 0 to 13, pairwise distinct; each
of the nine generators, whenever its interner lookups succeed, returns a key
whose first byte is the constant of its kind (device 0, global 1, block 2,
virtual mtime 5, index ID 8, folder meta 9, sequence 11, need 12, block list
13); and two keys returned by generators of different kinds are never
byte-equal, whatever their fields, buffers and interners. -/
theorem type_bytes_distinct :
    keyTypes = [0, 1, 2, 3, 4, 5, 6, 7, 8, 9, 10, 11, 12, 13]
    ∧ keyTypes.Nodup
    ∧ (KeyTypeDevice = 0 ∧ KeyTypeGlobal = 1 ∧ KeyTypeBlock = 2 ∧ KeyTypeVirtualMtime = 5
        ∧ KeyTypeIndexID = 8 ∧ KeyTypeFolderMeta = 9 ∧ KeyTypeSequence = 11 ∧ KeyTypeNeed = 12
        ∧ KeyTypeBlockList = 13)
    ∧ (∀ (σ : Type) (ix : smallIndex σ) (k : defaultKeyer σ) (buf : Slice) (c : GenCall),
        c.lookupsOk ix k →
        ∃ key k' R, c.run ix k buf = (.ok key, k') ∧ key.elems = c.typeByte :: R)
    ∧ (∀ (σ : Type) (ix : smallIndex σ) (k : defaultKeyer σ) (buf : Slice) (c : GenCall)
        (key : Slice) (k' : defaultKeyer σ),
        c.run ix k buf = (.ok key, k') → key.elems.head? = some c.typeByte)
    ∧ (∀ c₁ c₂ : GenCall, c₁.sameKind c₂ = false → c₁.typeByte ≠ c₂.typeByte)
    ∧ (∀ (σ τ : Type) (ix₁ : smallIndex σ) (ix₂ : smallIndex τ) (k₁ : defaultKeyer σ)
        (k₂ : defaultKeyer τ) (b₁ b₂ : Slice) (c₁ c₂ : GenCall) (key₁ key₂ : Slice)
        (k₁' : defaultKeyer σ) (k₂' : defaultKeyer τ),
        c₁.sameKind c₂ = false →
        c₁.run ix₁ k₁ b₁ = (.ok key₁, k₁') → c₂.run ix₂ k₂ b₂ = (.ok key₂, k₂') →
        key₁.elems ≠ key₂.elems) := by
  have hkinds : ∀ c₁ c₂ : GenCall, c₁.sameKind c₂ = false → c₁.typeByte ≠ c₂.typeByte := by
    intro c₁ c₂ h
    cases c₁ <;> cases c₂ <;> first
      | (simp [GenCall.typeByte, KeyTypeDevice, KeyTypeGlobal, KeyTypeBlock, KeyTypeVirtualMtime,
          KeyTypeIndexID, KeyTypeFolderMeta, KeyTypeSequence, KeyTypeNeed, KeyTypeBlockList]; done)
      | (simp [GenCall.sameKind] at h)
  refine ⟨rfl, by decide, ⟨rfl, rfl, rfl, rfl, rfl, rfl, rfl, rfl, rfl⟩, ?_, ?_, hkinds, ?_⟩
  · intro σ ix k buf c h
    exact GenCall.run_ok ix k buf c h
  · intro σ ix k buf c key k' h
    exact GenCall.run_head ix k buf c key k' h
  · intro σ τ ix₁ ix₂ k₁ k₂ b₁ b₂ c₁ c₂ key₁ key₂ k₁' k₂' hk h₁ h₂ heq
    have e₁ := GenCall.run_head ix₁ k₁ b₁ c₁ key₁ k₁' h₁
    have e₂ := GenCall.run_head ix₂ k₂ b₂ c₂ key₂ k₂' h₂
    rw [heq, e₂] at e₁
    exact hkinds c₁ c₂ hk (Option.some.inj e₁).symm

/-- Witness of C12: a global version key and a need file key with the same
folder and name, on a fresh store, differ. -/
theorem type_bytes_distinct_witness :
    ({ elems := [1, 0, 0, 0, 0, 110], spare := [] } : Slice).elems
      ≠ ({ elems := [12, 0, 0, 0, 0, 110], spare := [] } : Slice).elems :=
  type_bytes_distinct.2.2.2.2.2.2 indexState indexState specIndex specIndex freshKeyer freshKeyer
    Slice.nil Slice.nil (.globalVersion [102] [110]) (.needFile [102] [110])
    ⟨[1, 0, 0, 0, 0, 110], []⟩ ⟨[12, 0, 0, 0, 0, 110], []⟩ ⟨⟨[[102]], true⟩, ⟨[], true⟩⟩
    ⟨⟨[[102]], true⟩, ⟨[], true⟩⟩ rfl rfl rfl

/-! ## Buffers -/

/-- C13. Buffer reuse is not semantic for device keys: for every folder,
device and name and any two supplied buffers (nil, too small, or large enough
with arbitrary prior contents) `GenerateDeviceFileKey` returns byte-equal
results and leaves the interners in the same state; and when the interners
return the handles `fid` and `did`, the key returned for any buffer is the
type byte, the two handles and the name, every byte written by the call. -/
theorem deviceFileKey_buffer_independent {σ : Type} (ix : smallIndex σ) (k : defaultKeyer σ)
    (folder device name : Bytes) :
    (∀ b₁ b₂ : Slice,
        (GenerateDeviceFileKey ix k b₁ folder device name).1.map Slice.elems
          = (GenerateDeviceFileKey ix k b₂ folder device name).1.map Slice.elems
        ∧ (GenerateDeviceFileKey ix k b₁ folder device name).2
          = (GenerateDeviceFileKey ix k b₂ folder device name).2)
    ∧ (∀ (fid did : Nat) (sF sD : σ),
        ix.ID k.folderIdx folder = (.ok fid, sF) → ix.ID k.deviceIdx device = (.ok did, sD) →
        ∀ buf : Slice, ∃ key k', GenerateDeviceFileKey ix k buf folder device name = (.ok key, k')
          ∧ key.elems = 0x00 :: (be32 fid ++ (be32 did ++ name))) := by
  refine ⟨?_, ?_⟩
  · intro b₁ b₂
    rcases hF : ix.ID k.folderIdx folder with ⟨e | fid, sF⟩
    · simp [GenerateDeviceFileKey, hF]
    · rcases hD : ix.ID k.deviceIdx device with ⟨e | did, sD⟩
      · simp [GenerateDeviceFileKey, hF, hD]
      · obtain ⟨sp₁, h₁⟩ := GenerateDeviceFileKey_shape ix k b₁ folder device name fid did sF sD hF hD
        obtain ⟨sp₂, h₂⟩ := GenerateDeviceFileKey_shape ix k b₂ folder device name fid did sF sD hF hD
        rw [h₁, h₂]
        exact ⟨rfl, rfl⟩
  · intro fid did sF sD hF hD buf
    obtain ⟨sp, hk⟩ := GenerateDeviceFileKey_shape ix k buf folder device name fid did sF sD hF hD
    exact ⟨_, _, hk, rfl⟩

/-- Witness of C13: the nil buffer and a large buffer full of `7`. -/
theorem deviceFileKey_buffer_independent_witness :
    (GenerateDeviceFileKey specIndex freshKeyer Slice.nil [102] [100] [110]).1.map Slice.elems
      = (GenerateDeviceFileKey specIndex freshKeyer ⟨[7, 7], List.replicate 20 7⟩
          [102] [100] [110]).1.map Slice.elems :=
  ((deviceFileKey_buffer_independent specIndex freshKeyer [102] [100] [110]).1 Slice.nil
    ⟨[7, 7], List.replicate 20 7⟩).1

/-! ## Folder-scoped keys -/

/-- C15. Folder-scoped keys: when the folder interner returns the handle
`fid`, for every supplied buffer `GenerateMtimesKey` returns exactly the 5
bytes `0x05` and the big-endian folder handle, a VirtualMtime key with an empty
name part, and `GenerateFolderMetaKey` returns exactly the 5 bytes `0x09` and
the big-endian folder handle. -/
theorem folderScopedKeys_layout {σ : Type} (ix : smallIndex σ) (k : defaultKeyer σ)
    (buf : Slice) (folder : Bytes) (fid : Nat) (sF : σ)
    (hF : ix.ID k.folderIdx folder = (.ok fid, sF)) :
    (∃ key k', GenerateMtimesKey ix k buf folder = (.ok key, k')
        ∧ key.elems = 0x05 :: (be32 fid ++ []) ∧ key.len = 5)
    ∧ (∃ key k', GenerateFolderMetaKey ix k buf folder = (.ok key, k')
        ∧ key.elems = 0x09 :: be32 fid ∧ key.len = 5) := by
  obtain ⟨sp₁, h₁⟩ := GenerateMtimesKey_shape ix k buf folder fid sF hF
  obtain ⟨sp₂, h₂⟩ := GenerateFolderMetaKey_shape ix k buf folder fid sF hF
  exact ⟨⟨_, _, h₁, by simp [KeyTypeVirtualMtime], rfl⟩, ⟨_, _, h₂, rfl, rfl⟩⟩

/-- Witness of C15: the third folder of a store, dirty buffer. -/
theorem folderScopedKeys_layout_witness :
    (∃ key k', GenerateMtimesKey specIndex ⟨⟨[[1], [2]], true⟩, ⟨[], true⟩⟩
          ⟨[9, 9, 9, 9, 9, 9, 9], [9]⟩ [102] = (.ok key, k')
        ∧ key.elems = 0x05 :: (be32 2 ++ []) ∧ key.len = 5)
    ∧ (∃ key k', GenerateFolderMetaKey specIndex ⟨⟨[[1], [2]], true⟩, ⟨[], true⟩⟩
          ⟨[9, 9, 9, 9, 9, 9, 9], [9]⟩ [102] = (.ok key, k')
        ∧ key.elems = 0x09 :: be32 2 ∧ key.len = 5) :=
  folderScopedKeys_layout specIndex ⟨⟨[[1], [2]], true⟩, ⟨[], true⟩⟩
    ⟨[9, 9, 9, 9, 9, 9, 9], [9]⟩ [102] 2 ⟨[[1], [2], [102]], true⟩ rfl

theorem writeFrom_copy_long (A C D sp : List Nat) (lo : Nat) (src : Bytes)
    (hA : A.length = lo) (hC : C.length ≤ src.length) :
    ∃ D', Slice.writeFrom ⟨A ++ (C ++ D), sp⟩ lo (fun b => .ok (b.copy src))
        = .ok ⟨A ++ (src.take C.length ++ D'), sp⟩ ∧ D'.length = D.length := by
  subst hA
  refine ⟨(src.take (min (C.length + D.length) src.length)).drop C.length
    ++ (C ++ D).drop (min (C.length + D.length) src.length), ?_, ?_⟩
  · have h1 : src.take C.length
        ++ (src.take (min (C.length + D.length) src.length)).drop C.length
        = src.take (min (C.length + D.length) src.length) := by
      have hle : C.length ≤ min (C.length + D.length) src.length := by simp; omega
      conv_rhs =>
        rw [← List.take_append_drop C.length (src.take (min (C.length + D.length) src.length))]
      rw [List.take_take, min_eq_left hle]
    simp only [Slice.writeFrom, Slice.sliceFrom, Slice.len, Slice.copy, List.length_append,
      le_add_iff_nonneg_right, zero_le, ↓reduceIte, List.drop_left]
    rw [← List.append_assoc (List.take C.length src), h1, List.take_left]
  · simp only [List.length_append, List.length_drop, List.length_take]
    omega

/-- Bytes of a generated block map key when the hash has at least
`keyHashLen` bytes: its first 32 bytes follow the folder handle, for any
supplied buffer. -/
theorem GenerateBlockMapKey_shape_long {σ : Type} (ix : smallIndex σ) (k : defaultKeyer σ)
    (buf : Slice) (folder hash name : Bytes) (fid : Nat) (sF : σ)
    (hF : ix.ID k.folderIdx folder = (.ok fid, sF)) (hlen : keyHashLen ≤ hash.length) :
    ∃ sp, GenerateBlockMapKey ix k buf folder hash name
      = (.ok ⟨KeyTypeBlock :: (be32 fid ++ (hash.take keyHashLen ++ name)), sp⟩,
          ⟨sF, k.deviceIdx⟩) := by
  obtain ⟨a, R, sp, hr, hR⟩ := resize_cons buf (4 + (32 + name.length))
  obtain ⟨F, B, rfl, hFl, hB⟩ := split_length hR
  obtain ⟨B₁, B₂, rfl, hB₁, hB₂⟩ := split_length hB
  have e1 : keyPrefixLen + keyFolderLen + keyHashLen + name.length
      = 1 + (4 + (32 + name.length)) := by
    simp [keyPrefixLen, keyFolderLen, keyHashLen]; omega
  have s1 := writeFrom_PutUint32 [KeyTypeBlock] F (B₁ ++ B₂) sp keyPrefixLen fid rfl hFl
  simp only [List.singleton_append] at s1
  obtain ⟨D', s2, hD'⟩ := writeFrom_copy_long (KeyTypeBlock :: be32 fid) B₁ B₂ sp
    (keyPrefixLen + keyFolderLen) hash rfl (by rw [hB₁]; exact hlen)
  have hB₁' : B₁.length = keyHashLen := hB₁
  simp only [List.cons_append, hB₁'] at s2
  have s3 := writeFrom_copy (KeyTypeBlock :: (be32 fid ++ hash.take keyHashLen)) D' [] sp
    (keyPrefixLen + keyFolderLen + keyHashLen) name
    (by simp only [keyHashLen] at hlen
        simp [be32_length, keyPrefixLen, keyFolderLen, keyHashLen]; omega)
    (by rw [hD', hB₂])
  simp only [List.cons_append, List.append_assoc, List.append_nil] at s3
  refine ⟨sp, ?_⟩
  simp only [GenerateBlockMapKey, hF, e1, hr, bind, Except.bind, setIndex_zero, s1, s2, s3]

/-- C14, as stated, fails: with the two-byte hash `01 02` the nil buffer gives
a key whose bytes 7 to 36 are zero, and a buffer of fifty `7` gives a key whose
bytes 7 to 36 are `7`: the two results are not byte-equal. -/
theorem blockMapKey_buffer_dependent :
    (GenerateBlockMapKey specIndex freshKeyer Slice.nil [102] [1, 2] [110]).1.map Slice.elems
        = .ok ([2, 0, 0, 0, 0, 1, 2] ++ List.replicate 30 0 ++ [110])
    ∧ (GenerateBlockMapKey specIndex freshKeyer ⟨[], List.replicate 50 7⟩ [102] [1, 2]
          [110]).1.map Slice.elems
        = .ok ([2, 0, 0, 0, 0, 1, 2] ++ List.replicate 30 7 ++ [110])
    ∧ (GenerateBlockMapKey specIndex freshKeyer Slice.nil [102] [1, 2] [110]).1.map Slice.elems
        ≠ (GenerateBlockMapKey specIndex freshKeyer ⟨[], List.replicate 50 7⟩ [102] [1, 2]
            [110]).1.map Slice.elems := by
  have h₁ : (GenerateBlockMapKey specIndex freshKeyer Slice.nil [102] [1, 2] [110]).1.map
      Slice.elems = .ok ([2, 0, 0, 0, 0, 1, 2] ++ List.replicate 30 0 ++ [110]) := by rfl
  have h₂ : (GenerateBlockMapKey specIndex freshKeyer ⟨[], List.replicate 50 7⟩ [102] [1, 2]
      [110]).1.map Slice.elems = .ok ([2, 0, 0, 0, 0, 1, 2] ++ List.replicate 30 7 ++ [110]) := by
    rfl
  refine ⟨h₁, h₂, ?_⟩
  rw [h₁, h₂]
  intro h
  have h' := Except.ok.inj h
  revert h'
  decide

/-- C14, amended. Buffer reuse is not semantic for block map keys whose hash
has at least `keyHashLen` = 32 bytes: for every folder, every such hash and
every name, and any two supplied buffers, `GenerateBlockMapKey` returns
byte-equal results and leaves the interners in the same state; when the folder
interner returns the handle `fid` the key is the type byte, the handle, the
first 32 bytes of the hash and the name. -/
theorem blockMapKey_buffer_independent {σ : Type} (ix : smallIndex σ) (k : defaultKeyer σ)
    (folder hash name : Bytes) (hlen : 32 ≤ hash.length) :
    (∀ b₁ b₂ : Slice,
        (GenerateBlockMapKey ix k b₁ folder hash name).1.map Slice.elems
          = (GenerateBlockMapKey ix k b₂ folder hash name).1.map Slice.elems
        ∧ (GenerateBlockMapKey ix k b₁ folder hash name).2
          = (GenerateBlockMapKey ix k b₂ folder hash name).2)
    ∧ (∀ (fid : Nat) (sF : σ), ix.ID k.folderIdx folder = (.ok fid, sF) →
        ∀ buf : Slice, ∃ key k', GenerateBlockMapKey ix k buf folder hash name = (.ok key, k')
          ∧ key.elems = 0x02 :: (be32 fid ++ (hash.take 32 ++ name))) := by
  refine ⟨?_, ?_⟩
  · intro b₁ b₂
    rcases hF : ix.ID k.folderIdx folder with ⟨e | fid, sF⟩
    · simp [GenerateBlockMapKey, hF]
    · obtain ⟨sp₁, h₁⟩ := GenerateBlockMapKey_shape_long ix k b₁ folder hash name fid sF hF hlen
      obtain ⟨sp₂, h₂⟩ := GenerateBlockMapKey_shape_long ix k b₂ folder hash name fid sF hF hlen
      rw [h₁, h₂]
      exact ⟨rfl, rfl⟩
  · intro fid sF hF buf
    obtain ⟨sp, hk⟩ := GenerateBlockMapKey_shape_long ix k buf folder hash name fid sF hF hlen
    exact ⟨_, _, hk, rfl⟩

/-- Witness of the amended C14: a 32-byte hash, the nil buffer and a buffer of
fifty `7`. -/
theorem blockMapKey_buffer_independent_witness :
    (GenerateBlockMapKey specIndex freshKeyer Slice.nil [102] (List.range 32)
        [110]).1.map Slice.elems
      = (GenerateBlockMapKey specIndex freshKeyer ⟨[], List.replicate 50 7⟩ [102] (List.range 32)
          [110]).1.map Slice.elems :=
  ((blockMapKey_buffer_independent specIndex freshKeyer [102] (List.range 32) [110]
    (by decide)).1 Slice.nil ⟨[], List.replicate 50 7⟩).1

/-! ## The reference interner -/

theorem indexOf?_append_self (vals : List Bytes) (x : Bytes) (h : vals.indexOf? x = none) :
    (vals ++ [x]).indexOf? x = some vals.length := by
  simp only [List.indexOf?] at h ⊢
  simp [List.findIdx?_append, h]

theorem getElem?_of_indexOf? (vals : List Bytes) (x : Bytes) (i : Nat)
    (h : vals.indexOf? x = some i) : vals[i]? = some x := by
  have h' := List.findIdx?_of_eq_some h
  split at h'
  · rename_i a ha
    rw [ha]
    simpa using h'
  · simp at h'

theorem indexOf?_of_getElem? (vals : List Bytes) (hnd : vals.Nodup) (v : Bytes) (i : Nat)
    (h : vals[i]? = some v) : vals.indexOf? v = some i := by
  obtain ⟨hi, hv⟩ := List.getElem?_eq_some_iff.mp h
  rw [List.indexOf?, List.findIdx?_eq_some_iff_getElem]
  refine ⟨hi, by simp [hv], ?_⟩
  intro j hji hj
  have hj' : vals[j] = v := by simpa using hj
  have := (@List.Nodup.getElem_inj_iff _ vals hnd j (Nat.lt_trans hji hi) i hi).mp
    (hj'.trans hv.symm)
  omega

/-- The outcome of `ID` on the reference interner, case by case. -/
theorem specIndex_ID_cases (s : indexState) (x : Bytes) :
    (∃ i, s.vals.indexOf? x = some i ∧ specIndex.ID s x = (.ok i, s))
    ∨ (s.vals.indexOf? x = none ∧ s.writable = true
        ∧ specIndex.ID s x = (.ok s.vals.length, { s with vals := s.vals ++ [x] }))
    ∨ (s.vals.indexOf? x = none ∧ s.writable = false ∧ specIndex.ID s x = (.error 1, s)) := by
  rcases h : s.vals.indexOf? x with _ | i
  · rcases hw : s.writable with _ | _
    · exact Or.inr (Or.inr ⟨rfl, rfl, by simp [specIndex, h, hw]⟩)
    · exact Or.inr (Or.inl ⟨rfl, rfl, by simp [specIndex, h, hw]⟩)
  · exact Or.inl ⟨i, rfl, by simp [specIndex, h]⟩

theorem specIndex_Val_eq (s : indexState) (i : Nat) (v : Bytes) :
    specIndex.Val s i = (v, true) ↔ s.vals[i]? = some v := by
  simp only [specIndex]
  rcases h : s.vals[i]? with _ | w <;> simp

theorem specIndex_Val_ID (s s' : indexState) (x : Bytes) (i : Nat)
    (h : specIndex.ID s x = (.ok i, s')) : specIndex.Val s' i = (x, true) := by
  rw [specIndex_Val_eq]
  rcases specIndex_ID_cases s x with ⟨j, hj, e⟩ | ⟨_, _, e⟩ | ⟨_, _, e⟩
  · rw [e] at h
    simp only [Prod.mk.injEq, Except.ok.injEq] at h
    obtain ⟨rfl, rfl⟩ := h
    exact getElem?_of_indexOf? _ _ _ hj
  · rw [e] at h
    simp only [Prod.mk.injEq, Except.ok.injEq] at h
    obtain ⟨rfl, rfl⟩ := h
    simp
  · rw [e] at h
    simp at h

theorem specIndex_ID_idem (s : indexState) (x : Bytes) :
    specIndex.ID (specIndex.ID s x).2 x = specIndex.ID s x := by
  rcases specIndex_ID_cases s x with ⟨j, hj, e⟩ | ⟨hn, hw, e⟩ | ⟨_, _, e⟩
  · rw [e]; exact e
  · rw [e]
    simp only [specIndex, indexOf?_append_self _ _ hn]
  · rw [e]; exact e

theorem specIndex_ID_grows (s : indexState) (x : Bytes) :
    s.vals <+: (specIndex.ID s x).2.vals := by
  rcases specIndex_ID_cases s x with ⟨j, hj, e⟩ | ⟨hn, hw, e⟩ | ⟨_, _, e⟩
  · rw [e]
  · rw [e]; exact List.prefix_append _ _
  · rw [e]

theorem specIndex_ID_nodup (s : indexState) (x : Bytes) (h : s.vals.Nodup) :
    (specIndex.ID s x).2.vals.Nodup := by
  rcases specIndex_ID_cases s x with ⟨j, hj, e⟩ | ⟨hn, hw, e⟩ | ⟨_, _, e⟩
  · rw [e]; exact h
  · rw [e]
    have hx : x ∉ s.vals := by
      intro hmem
      have := List.indexOf?_eq_none_iff.mp hn x hmem
      simp at this
    exact List.Nodup.append h (List.nodup_singleton x) (by simpa using hx)
  · rw [e]; exact h

theorem Later_grows (s t : indexState) (h : Later s t) : s.vals <+: t.vals := by
  induction h with
  | refl => exact List.prefix_refl _
  | call t x _ ih => exact ih.trans (specIndex_ID_grows t x)
  | backend t w _ ih => exact ih

theorem Later_Val (s t : indexState) (h : Later s t) (i : Nat) (v : Bytes)
    (hv : specIndex.Val s i = (v, true)) : specIndex.Val t i = (v, true) := by
  rw [specIndex_Val_eq] at hv ⊢
  obtain ⟨R, hR⟩ := Later_grows s t h
  obtain ⟨hi, hvi⟩ := List.getElem?_eq_some_iff.mp hv
  rw [← hR, List.getElem?_append_left hi]
  exact hv

/-- Two device file keys generated in succession for the same fields, on an
interner whose `ID` repeats its answer and leaves the state it left. -/
theorem GenerateDeviceFileKey_twice {σ : Type} (ix : smallIndex σ)
    (hidem : ∀ s x, ix.ID (ix.ID s x).2 x = ix.ID s x) (k : defaultKeyer σ)
    (b₁ b₂ : Slice) (folder device name : Bytes) :
    (GenerateDeviceFileKey ix (GenerateDeviceFileKey ix k b₁ folder device name).2 b₂
        folder device name).2 = (GenerateDeviceFileKey ix k b₁ folder device name).2
    ∧ (GenerateDeviceFileKey ix (GenerateDeviceFileKey ix k b₁ folder device name).2 b₂
        folder device name).1.map Slice.elems
      = (GenerateDeviceFileKey ix k b₁ folder device name).1.map Slice.elems := by
  rcases hF : ix.ID k.folderIdx folder with ⟨rF, sF⟩
  have hF₂ : ix.ID sF folder = (rF, sF) := by
    have := hidem k.folderIdx folder
    rw [hF] at this
    exact this
  rcases rF with e | fid
  · simp [GenerateDeviceFileKey, hF, hF₂]
  · rcases hD : ix.ID k.deviceIdx device with ⟨rD, sD⟩
    have hD₂ : ix.ID sD device = (rD, sD) := by
      have := hidem k.deviceIdx device
      rw [hD] at this
      exact this
    rcases rD with e | did
    · simp [GenerateDeviceFileKey, hF, hF₂, hD, hD₂]
    · obtain ⟨sp₁, h₁⟩ := GenerateDeviceFileKey_shape ix k b₁ folder device name fid did sF sD hF hD
      obtain ⟨sp₂, h₂⟩ := GenerateDeviceFileKey_shape ix ⟨sF, sD⟩ b₂ folder device name fid did
        sF sD hF₂ hD₂
      rw [h₁, h₂]
      exact ⟨rfl, rfl⟩

/-- C16. Handles are stable: on the reference interner, calling
`GenerateDeviceFileKey` twice in succession with the same folder, device and
name, whatever the store and the two buffers, returns byte-equal results, and
the state of the two interners after the second call is the state after the
first: no handle is assigned by the second call. When the backend accepts
writes both calls return a key. -/
theorem handles_stable (k : defaultKeyer indexState) (b₁ b₂ : Slice)
    (folder device name : Bytes) :
    (GenerateDeviceFileKey specIndex (GenerateDeviceFileKey specIndex k b₁ folder device name).2
        b₂ folder device name).2 = (GenerateDeviceFileKey specIndex k b₁ folder device name).2
    ∧ (GenerateDeviceFileKey specIndex (GenerateDeviceFileKey specIndex k b₁ folder device name).2
        b₂ folder device name).1.map Slice.elems
      = (GenerateDeviceFileKey specIndex k b₁ folder device name).1.map Slice.elems
    ∧ (k.folderIdx.writable = true → k.deviceIdx.writable = true →
        ∃ key₁ key₂ k',
          GenerateDeviceFileKey specIndex k b₁ folder device name = (.ok key₁, k')
          ∧ GenerateDeviceFileKey specIndex k' b₂ folder device name = (.ok key₂, k')
          ∧ key₁.elems = key₂.elems) := by
  obtain ⟨h₁, h₂⟩ := GenerateDeviceFileKey_twice specIndex specIndex_ID_idem k b₁ b₂
    folder device name
  refine ⟨h₁, h₂, ?_⟩
  intro hwF hwD
  have hF : ∃ fid sF, specIndex.ID k.folderIdx folder = (.ok fid, sF) := by
    rcases specIndex_ID_cases k.folderIdx folder with ⟨j, _, e⟩ | ⟨_, _, e⟩ | ⟨_, hw, _⟩
    · exact ⟨_, _, e⟩
    · exact ⟨_, _, e⟩
    · rw [hwF] at hw; cases hw
  have hD : ∃ did sD, specIndex.ID k.deviceIdx device = (.ok did, sD) := by
    rcases specIndex_ID_cases k.deviceIdx device with ⟨j, _, e⟩ | ⟨_, _, e⟩ | ⟨_, hw, _⟩
    · exact ⟨_, _, e⟩
    · exact ⟨_, _, e⟩
    · rw [hwD] at hw; cases hw
  obtain ⟨fid, sF, hF⟩ := hF
  obtain ⟨did, sD, hD⟩ := hD
  have hF₂ : specIndex.ID sF folder = (.ok fid, sF) := by
    have := specIndex_ID_idem k.folderIdx folder
    rw [hF] at this
    exact this
  have hD₂ : specIndex.ID sD device = (.ok did, sD) := by
    have := specIndex_ID_idem k.deviceIdx device
    rw [hD] at this
    exact this
  obtain ⟨sp₁, e₁⟩ := GenerateDeviceFileKey_shape specIndex k b₁ folder device name fid did
    sF sD hF hD
  obtain ⟨sp₂, e₂⟩ := GenerateDeviceFileKey_shape specIndex ⟨sF, sD⟩ b₂ folder device name
    fid did sF sD hF₂ hD₂
  exact ⟨_, _, _, e₁, e₂, rfl⟩

/-- Witness of C16 on a fresh store: the first call assigns the handle 0 twice,
the second call assigns nothing. -/
theorem handles_stable_witness :
    ∃ key₁ key₂ k',
      GenerateDeviceFileKey specIndex freshKeyer Slice.nil [102] [100] [110] = (.ok key₁, k')
      ∧ GenerateDeviceFileKey specIndex k' ⟨[], [7, 7, 7, 7, 7, 7, 7, 7, 7, 7, 7, 7]⟩
          [102] [100] [110] = (.ok key₂, k')
      ∧ key₁.elems = key₂.elems :=
  (handles_stable freshKeyer Slice.nil ⟨[], [7, 7, 7, 7, 7, 7, 7, 7, 7, 7, 7, 7]⟩
    [102] [100] [110]).2.2 rfl rfl

/-- C17. Interner failure surfaces to the caller: if the folder interner's
`ID` fails, `GenerateDeviceFileKey` returns no key together with that error,
and the device interner is left as it was; if the folder lookup succeeds but
the device interner's `ID` fails, it returns no key together with the device
error; it returns a key if and only if both lookups succeed. -/
theorem interner_failure_surfaces {σ : Type} (ix : smallIndex σ) (k : defaultKeyer σ)
    (buf : Slice) (folder device name : Bytes) :
    (∀ (e : Nat) (sF : σ), ix.ID k.folderIdx folder = (.error e, sF) →
        GenerateDeviceFileKey ix k buf folder device name
          = (.error (.interner e), ⟨sF, k.deviceIdx⟩))
    ∧ (∀ (fid e : Nat) (sF sD : σ), ix.ID k.folderIdx folder = (.ok fid, sF) →
        ix.ID k.deviceIdx device = (.error e, sD) →
        GenerateDeviceFileKey ix k buf folder device name = (.error (.interner e), ⟨sF, sD⟩))
    ∧ ((∃ key, (GenerateDeviceFileKey ix k buf folder device name).1 = .ok key)
        ↔ ((∃ fid sF, ix.ID k.folderIdx folder = (.ok fid, sF))
          ∧ (∃ did sD, ix.ID k.deviceIdx device = (.ok did, sD)))) := by
  refine ⟨?_, ?_, ?_⟩
  · intro e sF hF
    simp [GenerateDeviceFileKey, hF]
  · intro fid e sF sD hF hD
    simp [GenerateDeviceFileKey, hF, hD]
  · constructor
    · rintro ⟨key, hk⟩
      rcases hF : ix.ID k.folderIdx folder with ⟨e | fid, sF⟩
      · simp [GenerateDeviceFileKey, hF] at hk
      · rcases hD : ix.ID k.deviceIdx device with ⟨e | did, sD⟩
        · simp [GenerateDeviceFileKey, hF, hD] at hk
        · exact ⟨⟨fid, sF, rfl⟩, ⟨did, sD, rfl⟩⟩
    · rintro ⟨⟨fid, sF, hF⟩, ⟨did, sD, hD⟩⟩
      obtain ⟨sp, hk⟩ := GenerateDeviceFileKey_shape ix k buf folder device name fid did sF sD
        hF hD
      exact ⟨_, by rw [hk]⟩

/-- Witness of C17: the folder interner cannot write, the device interner
could; the call fails with the folder error and the device interner stays
empty. -/
theorem interner_failure_surfaces_witness :
    GenerateDeviceFileKey specIndex ⟨⟨[], false⟩, ⟨[], true⟩⟩ Slice.nil [102] [100] [110]
      = (.error (.interner 1), ⟨⟨[], false⟩, ⟨[], true⟩⟩) :=
  (interner_failure_surfaces specIndex ⟨⟨[], false⟩, ⟨[], true⟩⟩ Slice.nil [102] [100] [110]).1
    1 ⟨[], false⟩ rfl

theorem Later_nodup (s t : indexState) (h : Later s t) (hs : s.vals.Nodup) : t.vals.Nodup := by
  induction h with
  | refl => exact hs
  | call t x _ ih => exact specIndex_ID_nodup t x ih
  | backend t w _ ih => exact ih

/-- C18. Interner bijection, on the reference interner:
(1) `Val(ID(x)) = (x, true)`, the handle returned being a live one;
(2) in a state without repeated entries, `ID(Val(i)) = i` for every live
handle `i`, and the state is unchanged;
(3) `ID` is injective: a handle returned for `x` and, at any later time, for
`y` forces `x = y`;
(4) handles are never reused: a live handle keeps its value at any later time;
(5) a fresh interner has no repeated entries and no `ID` call or change of the
backend introduces one. -/
theorem interner_bijection :
    (∀ (s s' : indexState) (x : Bytes) (i : Nat), specIndex.ID s x = (.ok i, s') →
        specIndex.Val s' i = (x, true) ∧ i < s'.vals.length)
    ∧ (∀ (s : indexState), s.vals.Nodup → ∀ (i : Nat) (v : Bytes),
        specIndex.Val s i = (v, true) → specIndex.ID s v = (.ok i, s))
    ∧ (∀ (s s₁ t t' : indexState) (x y : Bytes) (i j : Nat),
        specIndex.ID s x = (.ok i, s₁) → Later s₁ t → specIndex.ID t y = (.ok j, t') →
        i = j → x = y)
    ∧ (∀ (s t : indexState), Later s t → ∀ (i : Nat) (v : Bytes),
        specIndex.Val s i = (v, true) → specIndex.Val t i = (v, true))
    ∧ (freshKeyer.folderIdx.vals.Nodup ∧ freshKeyer.deviceIdx.vals.Nodup
        ∧ ∀ (s t : indexState), Later s t → s.vals.Nodup → t.vals.Nodup) := by
  refine ⟨?_, ?_, ?_, Later_Val, ⟨List.nodup_nil, List.nodup_nil, Later_nodup⟩⟩
  · intro s s' x i h
    have hv := specIndex_Val_ID s s' x i h
    refine ⟨hv, ?_⟩
    rw [specIndex_Val_eq] at hv
    exact (List.getElem?_eq_some_iff.mp hv).1
  · intro s hs i v hv
    rw [specIndex_Val_eq] at hv
    have hi := indexOf?_of_getElem? s.vals hs v i hv
    simp [specIndex, hi]
  · intro s s₁ t t' x y i j hx hl hy hij
    have hvx := specIndex_Val_ID s s₁ x i hx
    have hvy := specIndex_Val_ID t t' y j hy
    have hl' : Later s₁ t' := by
      have := Later.call s₁ t y hl
      rw [hy] at this
      exact this
    have hvx' := Later_Val s₁ t' hl' i x hvx
    rw [hij, hvy] at hvx'
    exact ((Prod.mk.injEq _ _ _ _).mp hvx').1.symm

/-- Witness of C18: on a store holding `f` and `g`, looking up `g` gives the
handle 1, and `Val` of 1 gives `g` back. -/
theorem interner_bijection_witness :
    specIndex.Val ⟨[[102], [103]], true⟩ 1 = ([103], true) ∧ 1 < [[102], [103]].length :=
  interner_bijection.1 ⟨[[102], [103]], true⟩ ⟨[[102], [103]], true⟩ [103] 1 rfl

/-! ## Order of the sequence keys -/

theorem bytesLess_digit (u v M : Nat) (as bs : Bytes)
    (h : u % (M * 256) < v % (M * 256))
    (ih : u % M < v % M → bytesLess as bs = true) :
    bytesLess ((u / M % 256) :: as) ((v / M % 256) :: bs) = true := by
  rw [Nat.mod_mul, Nat.mod_mul] at h
  simp only [bytesLess, Bool.or_eq_true, decide_eq_true_eq, Bool.and_eq_true, beq_iff_eq]
  rcases Nat.eq_zero_or_pos M with hM | hM
  · subst hM
    simp only [Nat.mod_zero, Nat.zero_mul, Nat.add_zero] at h
    exact Or.inr ⟨by simp, ih (by simpa using h)⟩
  · have hu := Nat.mod_lt u hM
    have hv := Nat.mod_lt v hM
    rcases Nat.lt_trichotomy (u / M % 256) (v / M % 256) with hlt | heq | hgt
    · exact Or.inl hlt
    · refine Or.inr ⟨heq, ih ?_⟩
      rw [heq] at h
      omega
    · exfalso
      have h1 : M * (v / M % 256 + 1) ≤ M * (u / M % 256) := Nat.mul_le_mul_left M hgt
      rw [Nat.mul_succ] at h1
      omega

theorem bytesLess_be64 (u v : Nat) (huv : u < v) (hv : v < 2 ^ 64) :
    bytesLess (be64 u) (be64 v) = true := by
  have h8 : u % (2 ^ 56 * 256) < v % (2 ^ 56 * 256) := by
    rw [Nat.mod_eq_of_lt (by omega), Nat.mod_eq_of_lt (by omega)]
    exact huv
  unfold be64
  refine bytesLess_digit u v (2 ^ 56) _ _ h8 (fun h7 => ?_)
  refine bytesLess_digit u v (2 ^ 48) _ _ h7 (fun h6 => ?_)
  refine bytesLess_digit u v (2 ^ 40) _ _ h6 (fun h5 => ?_)
  refine bytesLess_digit u v (2 ^ 32) _ _ h5 (fun h4 => ?_)
  refine bytesLess_digit u v (2 ^ 24) _ _ h4 (fun h3 => ?_)
  refine bytesLess_digit u v (2 ^ 16) _ _ h3 (fun h2 => ?_)
  refine bytesLess_digit u v (2 ^ 8) _ _ h2 (fun h1 => ?_)
  have h1' : u % 256 < v % 256 := h1
  simp [bytesLess, h1']

/-- C21. Sequence keys sort numerically: for one folder, whose handle `fid`
the interner returns at both calls, and every two `int64` sequence numbers
with `0 ≤ a < b`, on any states and buffers, the key generated for `a` is
bytewise-lexicographically less than the key generated for `b`; both keys
start with the 5 bytes that `WithoutSequence` returns. -/
theorem sequenceKey_order {σ : Type} (ix : smallIndex σ) (k₁ k₂ : defaultKeyer σ)
    (b₁ b₂ : Slice) (folder : Bytes) (a b : Int) (fid : Nat) (s₁ s₂ : σ)
    (hF₁ : ix.ID k₁.folderIdx folder = (.ok fid, s₁))
    (hF₂ : ix.ID k₂.folderIdx folder = (.ok fid, s₂))
    (ha : 0 ≤ a) (hab : a < b) (hb : b < 2 ^ 63) :
    ∃ key₁ k₁' key₂ k₂' p,
      GenerateSequenceKey ix k₁ b₁ folder a = (.ok key₁, k₁')
      ∧ GenerateSequenceKey ix k₂ b₂ folder b = (.ok key₂, k₂')
      ∧ bytesLess key₁.elems key₂.elems = true
      ∧ WithoutSequence key₁ = .ok p ∧ p.elems <+: key₁.elems ∧ p.elems <+: key₂.elems := by
  obtain ⟨sp₁, hk₁⟩ := GenerateSequenceKey_shape ix k₁ b₁ folder a fid s₁ hF₁
  obtain ⟨sp₂, hk₂⟩ := GenerateSequenceKey_shape ix k₂ b₂ folder b fid s₂ hF₂
  have hu : uint64 a < uint64 b := by unfold uint64; omega
  have hv : uint64 b < 2 ^ 64 := uint64_lt b
  have hless := bytesLess_be64 (uint64 a) (uint64 b) hu hv
  have h := bytesLess_append_left (KeyTypeSequence :: be32 fid) (be64 (uint64 a)) (be64 (uint64 b))
  simp only [List.cons_append] at h
  refine ⟨_, _, _, _, _, hk₁, hk₂, by rw [h]; exact hless,
    sliceTo_header KeyTypeSequence fid (be64 (uint64 a)) sp₁, ⟨be64 (uint64 a), by simp⟩,
    ⟨be64 (uint64 b), by simp⟩⟩

/-- Witness of C21: the sequence numbers 255 and 256 of one folder, the second
key generated on the state the first call left. -/
theorem sequenceKey_order_witness :
    ∃ key₁ k₁' key₂ k₂' p,
      GenerateSequenceKey specIndex freshKeyer Slice.nil [102] 255 = (.ok key₁, k₁')
      ∧ GenerateSequenceKey specIndex ⟨⟨[[102]], true⟩, ⟨[], true⟩⟩ Slice.nil [102] 256
          = (.ok key₂, k₂')
      ∧ bytesLess key₁.elems key₂.elems = true
      ∧ WithoutSequence key₁ = .ok p ∧ p.elems <+: key₁.elems ∧ p.elems <+: key₂.elems :=
  sequenceKey_order specIndex freshKeyer ⟨⟨[[102]], true⟩, ⟨[], true⟩⟩ Slice.nil Slice.nil
    [102] 255 256 0 ⟨[[102]], true⟩ ⟨[[102]], true⟩ rfl rfl (by decide) (by decide) (by decide)

/-! ## Collisions -/

/-- C22. Device keys do not collide: take two device file keys, generated for
`(f, d, n)` and for `(f', d', n')` on any states and buffers, the interners
returning 32-bit handles. When the folder interner and the device interner are
injective (equal handles come from equal byte strings), byte-equal keys force
`f = f'`, `d = d'` and `n = n'`. -/
theorem deviceFileKey_injective {σ : Type} (ix : smallIndex σ) (k₁ k₂ : defaultKeyer σ)
    (b₁ b₂ : Slice) (f d n f' d' n' : Bytes) (fid did fid' did' : Nat) (s₁ t₁ s₂ t₂ : σ)
    (hF₁ : ix.ID k₁.folderIdx f = (.ok fid, s₁)) (hD₁ : ix.ID k₁.deviceIdx d = (.ok did, t₁))
    (hF₂ : ix.ID k₂.folderIdx f' = (.ok fid', s₂)) (hD₂ : ix.ID k₂.deviceIdx d' = (.ok did', t₂))
    (hfid : fid < 2 ^ 32) (hfid' : fid' < 2 ^ 32) (hdid : did < 2 ^ 32) (hdid' : did' < 2 ^ 32)
    (hinjF : fid = fid' → f = f') (hinjD : did = did' → d = d') :
    ∃ key₁ k₁' key₂ k₂',
      GenerateDeviceFileKey ix k₁ b₁ f d n = (.ok key₁, k₁')
      ∧ GenerateDeviceFileKey ix k₂ b₂ f' d' n' = (.ok key₂, k₂')
      ∧ (key₁.elems = key₂.elems → f = f' ∧ d = d' ∧ n = n') := by
  obtain ⟨sp₁, hk₁⟩ := GenerateDeviceFileKey_shape ix k₁ b₁ f d n fid did s₁ t₁ hF₁ hD₁
  obtain ⟨sp₂, hk₂⟩ := GenerateDeviceFileKey_shape ix k₂ b₂ f' d' n' fid' did' s₂ t₂ hF₂ hD₂
  refine ⟨_, _, _, _, hk₁, hk₂, ?_⟩
  intro h
  simp only [List.cons.injEq, true_and] at h
  obtain ⟨h₁, h₂⟩ := List.append_inj h (by simp [be32_length])
  obtain ⟨h₃, h₄⟩ := List.append_inj h₂ (by simp [be32_length])
  exact ⟨hinjF (be32_inj fid fid' hfid hfid' h₁), hinjD (be32_inj did did' hdid hdid' h₃), h₄⟩

/-- Witness of C22: two keys of one store that differ in the device only. -/
theorem deviceFileKey_injective_witness :
    ∃ key₁ k₁' key₂ k₂',
      GenerateDeviceFileKey specIndex freshKeyer Slice.nil [102] [100] [110] = (.ok key₁, k₁')
      ∧ GenerateDeviceFileKey specIndex ⟨⟨[[102]], true⟩, ⟨[[100]], true⟩⟩ Slice.nil
          [102] [101] [110] = (.ok key₂, k₂')
      ∧ (key₁.elems = key₂.elems →
          ([102] : Bytes) = [102] ∧ ([100] : Bytes) = [101] ∧ ([110] : Bytes) = [110]) :=
  deviceFileKey_injective specIndex freshKeyer ⟨⟨[[102]], true⟩, ⟨[[100]], true⟩⟩ Slice.nil
    Slice.nil [102] [100] [110] [102] [101] [110] 0 0 0 1 ⟨[[102]], true⟩ ⟨[[100]], true⟩
    ⟨[[102]], true⟩ ⟨[[100], [101]], true⟩ rfl rfl rfl rfl (by decide) (by decide) (by decide)
    (by decide) (fun _ => rfl) (by decide)

/-! ## The buffer helper -/

/-- C24. `resize` returns a byte slice of the specified size, reusing `bs` if
possible: for every buffer `bs` and every size the result has exactly `size`
bytes; if `cap(bs) ≥ size` the result is the first `size` bytes of the backing
storage of `bs`, which it keeps as its own (contents preserved, nothing
allocated); otherwise it is a fresh slice of `size` zero bytes with no spare
capacity. -/
theorem resize_spec (bs : Slice) (size : Nat) :
    (resize bs size).len = size
    ∧ (size ≤ bs.cap →
        (resize bs size).elems = (bs.elems ++ bs.spare).take size
        ∧ (resize bs size).elems ++ (resize bs size).spare = bs.elems ++ bs.spare
        ∧ (resize bs size).cap = bs.cap)
    ∧ (bs.cap < size → resize bs size = ⟨List.replicate size 0, []⟩) := by
  refine ⟨resize_elems_length bs size, ?_, ?_⟩
  · intro h
    have hr : resize bs size = bs.upTo size := by
      unfold resize
      rw [if_neg (by omega)]
    rw [hr]
    refine ⟨rfl, ?_, ?_⟩
    · simp [Slice.upTo]
    · simp only [Slice.cap, Slice.upTo, List.length_take, List.length_drop, List.length_append] at h ⊢
      omega
  · intro h
    unfold resize
    rw [if_pos h]
    rfl

/-- Witness of C24: a buffer of two visible bytes and three spare ones resized
to four bytes shows the first four bytes of its storage; resized to six bytes
it is replaced by six zero bytes. -/
theorem resize_spec_witness :
    (resize ⟨[1, 2], [3, 4, 5]⟩ 4).elems = [1, 2, 3, 4]
    ∧ resize ⟨[1, 2], [3, 4, 5]⟩ 6 = ⟨[0, 0, 0, 0, 0, 0], []⟩ :=
  ⟨((resize_spec ⟨[1, 2], [3, 4, 5]⟩ 4).2.1 (by decide)).1,
    (resize_spec ⟨[1, 2], [3, 4, 5]⟩ 6).2.2 (by decide)⟩

/-! ## Parsers stay in range -/

theorem sliceFrom_ok (s : Slice) (lo : Nat) (h : lo ≤ s.len) :
    ∃ b, s.sliceFrom lo = .ok b ∧ b.len = s.len - lo := by
  refine ⟨⟨s.elems.drop lo, s.spare⟩, ?_, ?_⟩
  · simp only [Slice.sliceFrom]
    rw [if_pos h]
  · simp [Slice.len]

theorem sliceTo_ok (s : Slice) (hi : Nat) (h : hi ≤ s.len) : Succeeds (s.sliceTo hi) := by
  refine ⟨s.upTo hi, ?_⟩
  simp only [Slice.sliceTo]
  rw [if_pos (by simp only [Slice.cap, Slice.len] at h ⊢; omega)]

theorem Uint32_ok (b : Slice) (h : 4 ≤ b.len) : Succeeds (Uint32 b) := by
  rcases b with ⟨elems, sp⟩
  simp only [Slice.len] at h
  match elems, h with
  | b0 :: b1 :: b2 :: b3 :: _, _ => exact ⟨_, rfl⟩

theorem Uint64_ok (b : Slice) (h : 8 ≤ b.len) : Succeeds (Uint64 b) := by
  rcases b with ⟨elems, sp⟩
  simp only [Slice.len] at h
  match elems, h with
  | b0 :: b1 :: b2 :: b3 :: b4 :: b5 :: b6 :: b7 :: _, _ => exact ⟨_, rfl⟩

/-- Reading a handle at the offset `lo` of a key with `lo + 4` bytes or more
and handing it to `Val` does not panic. -/
theorem handleAt_ok (key : Slice) (lo : Nat) (val : Nat → Bytes × Bool) (h : lo + 4 ≤ key.len) :
    Succeeds (do let b ← key.sliceFrom lo; let id ← Uint32 b; pure (val id)) := by
  obtain ⟨b, hb, hl⟩ := sliceFrom_ok key lo (by omega)
  obtain ⟨id, hid⟩ := Uint32_ok b (by omega)
  exact ⟨val id, by simp only [hb, hid, bind, Except.bind, pure, Except.pure]⟩

/-- A key that has the header of its kind is parsed without a panic. -/
theorem GenCall.parsersOk_of_len {σ : Type} (ix : smallIndex σ) (k : defaultKeyer σ)
    (key : Slice) (c : GenCall) (h : c.headerLen ≤ key.len) : c.parsersOk ix k key := by
  cases c with
  | deviceFile folder device name =>
    simp only [GenCall.headerLen, keyPrefixLen, keyFolderLen, keyDeviceLen] at h
    refine ⟨?_, ?_, ?_, sliceTo_ok key _ (by simp only [keyPrefixLen, keyFolderLen]; omega)⟩
    · obtain ⟨b, hb, -⟩ := sliceFrom_ok key (keyPrefixLen + keyFolderLen + keyDeviceLen)
        (by simp only [keyPrefixLen, keyFolderLen, keyDeviceLen]; omega)
      exact ⟨b, hb⟩
    · exact handleAt_ok key (keyPrefixLen + keyFolderLen) (ix.Val k.deviceIdx)
        (by simp only [keyPrefixLen, keyFolderLen]; omega)
    · exact handleAt_ok key keyPrefixLen (ix.Val k.folderIdx)
        (by simp only [keyPrefixLen]; omega)
  | globalVersion folder name =>
    simp only [GenCall.headerLen, keyPrefixLen, keyFolderLen] at h
    refine ⟨?_, ?_, sliceTo_ok key _ (by simp only [keyPrefixLen, keyFolderLen]; omega)⟩
    · obtain ⟨b, hb, -⟩ := sliceFrom_ok key (keyPrefixLen + keyFolderLen)
        (by simp only [keyPrefixLen, keyFolderLen]; omega)
      exact ⟨b, hb⟩
    · exact handleAt_ok key keyPrefixLen (ix.Val k.folderIdx)
        (by simp only [keyPrefixLen]; omega)
  | blockMap folder hash name =>
    simp only [GenCall.headerLen, keyPrefixLen, keyFolderLen, keyHashLen] at h
    refine ⟨?_, sliceTo_ok key _ (by simp only [keyPrefixLen, keyFolderLen]; omega)⟩
    obtain ⟨b, hb, -⟩ := sliceFrom_ok key (keyPrefixLen + keyFolderLen + keyHashLen)
      (by simp only [keyPrefixLen, keyFolderLen, keyHashLen]; omega)
    exact ⟨b, hb⟩
  | needFile folder name =>
    simp only [GenCall.headerLen, keyPrefixLen, keyFolderLen] at h
    exact sliceTo_ok key _ (by simp only [keyPrefixLen, keyFolderLen]; omega)
  | sequence folder seq =>
    simp only [GenCall.headerLen, keyPrefixLen, keyFolderLen, keySequenceLen] at h
    refine ⟨?_, sliceTo_ok key _ (by simp only [keyPrefixLen, keyFolderLen]; omega)⟩
    obtain ⟨b, hb, hl⟩ := sliceFrom_ok key (keyPrefixLen + keyFolderLen)
      (by simp only [keyPrefixLen, keyFolderLen]; omega)
    simp only [keyPrefixLen, keyFolderLen] at hl
    obtain ⟨u, hu⟩ := Uint64_ok b (by omega)
    exact ⟨int64 u, by
      simp only [SequenceFromSequenceKey, hb, hu, bind, Except.bind, pure, Except.pure]⟩
  | indexID device folder =>
    simp only [GenCall.headerLen, keyPrefixLen, keyFolderLen, keyDeviceLen] at h
    exact handleAt_ok key keyPrefixLen (ix.Val k.deviceIdx) (by simp only [keyPrefixLen]; omega)
  | mtimes folder => trivial
  | folderMeta folder => trivial
  | blockList hash =>
    simp only [GenCall.headerLen, keyPrefixLen] at h
    obtain ⟨b, hb, -⟩ := sliceFrom_ok key keyPrefixLen (by simp only [keyPrefixLen]; omega)
    exact ⟨b, hb⟩

/-- A key that a call returns has at least the header of its kind. -/
theorem GenCall.run_len {σ : Type} (ix : smallIndex σ) (k : defaultKeyer σ) (buf : Slice)
    (c : GenCall) (key : Slice) (k' : defaultKeyer σ)
    (h : c.run ix k buf = (.ok key, k')) : c.headerLen ≤ key.len := by
  obtain ⟨hf, hd⟩ := GenCall.lookupsOk_of_run ix k buf c key k' h
  cases c with
  | deviceFile folder device name =>
    obtain ⟨fid, sF, hF⟩ := hf folder rfl
    obtain ⟨did, sD, hD⟩ := hd device rfl
    obtain ⟨sp, hk⟩ := GenerateDeviceFileKey_shape ix k buf folder device name fid did sF sD hF hD
    simp only [GenCall.run, hk, Prod.mk.injEq, Except.ok.injEq] at h
    rw [← h.1]
    simp [GenCall.headerLen, Slice.len, be32_length, keyPrefixLen, keyFolderLen, keyDeviceLen]
    omega
  | globalVersion folder name =>
    obtain ⟨fid, sF, hF⟩ := hf folder rfl
    obtain ⟨sp, hk⟩ := GenerateGlobalVersionKey_shape ix k buf folder name fid sF hF
    simp only [GenCall.run, hk, Prod.mk.injEq, Except.ok.injEq] at h
    rw [← h.1]
    simp [GenCall.headerLen, Slice.len, be32_length, keyPrefixLen, keyFolderLen]
  | blockMap folder hash name =>
    obtain ⟨fid, sF, hF⟩ := hf folder rfl
    obtain ⟨H, sp, hk, hH, -⟩ := GenerateBlockMapKey_shape ix k buf folder hash name fid sF hF
    simp only [GenCall.run, hk, Prod.mk.injEq, Except.ok.injEq] at h
    rw [← h.1]
    simp [GenCall.headerLen, Slice.len, be32_length, hH, keyPrefixLen, keyFolderLen, keyHashLen]
    omega
  | needFile folder name =>
    obtain ⟨fid, sF, hF⟩ := hf folder rfl
    obtain ⟨sp, hk⟩ := GenerateNeedFileKey_shape ix k buf folder name fid sF hF
    simp only [GenCall.run, hk, Prod.mk.injEq, Except.ok.injEq] at h
    rw [← h.1]
    simp [GenCall.headerLen, Slice.len, be32_length, keyPrefixLen, keyFolderLen]
  | sequence folder seq =>
    obtain ⟨fid, sF, hF⟩ := hf folder rfl
    obtain ⟨sp, hk⟩ := GenerateSequenceKey_shape ix k buf folder seq fid sF hF
    simp only [GenCall.run, hk, Prod.mk.injEq, Except.ok.injEq] at h
    rw [← h.1]
    simp [GenCall.headerLen, Slice.len, be32_length, be64_length, keyPrefixLen, keyFolderLen,
      keySequenceLen]
  | indexID device folder =>
    obtain ⟨fid, sF, hF⟩ := hf folder rfl
    obtain ⟨did, sD, hD⟩ := hd device rfl
    obtain ⟨sp, hk⟩ := GenerateIndexIDKey_shape ix k buf device folder did fid sD sF hD hF
    simp only [GenCall.run, hk, Prod.mk.injEq, Except.ok.injEq] at h
    rw [← h.1]
    simp [GenCall.headerLen, Slice.len, be32_length, keyPrefixLen, keyFolderLen, keyDeviceLen]
  | mtimes folder =>
    obtain ⟨fid, sF, hF⟩ := hf folder rfl
    obtain ⟨sp, hk⟩ := GenerateMtimesKey_shape ix k buf folder fid sF hF
    simp only [GenCall.run, hk, Prod.mk.injEq, Except.ok.injEq] at h
    rw [← h.1]
    simp [GenCall.headerLen, Slice.len, be32_length, keyPrefixLen, keyFolderLen]
  | folderMeta folder =>
    obtain ⟨fid, sF, hF⟩ := hf folder rfl
    obtain ⟨sp, hk⟩ := GenerateFolderMetaKey_shape ix k buf folder fid sF hF
    simp only [GenCall.run, hk, Prod.mk.injEq, Except.ok.injEq] at h
    rw [← h.1]
    simp [GenCall.headerLen, Slice.len, be32_length, keyPrefixLen, keyFolderLen]
  | blockList hash =>
    obtain ⟨sp, hk⟩ := GenerateBlockListKey_shape buf hash
    simp only [GenCall.run, hk, Prod.mk.injEq, Except.ok.injEq] at h
    rw [← h.1]
    simp [GenCall.headerLen, Slice.len, keyPrefixLen]

/-- C23. Parsers never read out of range on generated keys: the fixed header
has 5 bytes for global version, need file, mtimes and folder meta keys, 9 for
device file and index ID keys, 13 for sequence keys, 37 for block map keys and
1 for block list keys; each generator, whenever its interner lookups succeed,
returns a key; every key a generator returns is at least as long as the header
of its kind; and every parser and prefix helper of that kind (`NameFrom*`,
`FolderFrom*`, `DeviceFrom*`, `SequenceFromSequenceKey`, `Without*`,
`BlocksHash`) returns a value on it, with no slice or index out of range,
whatever the state of the interners. -/
theorem parsers_in_range :
    (∀ c : GenCall, c.headerLen = match c with
        | .deviceFile _ _ _ => 9
        | .indexID _ _ => 9
        | .sequence _ _ => 13
        | .blockMap _ _ _ => 37
        | .blockList _ => 1
        | _ => 5)
    ∧ (∀ (σ : Type) (ix : smallIndex σ) (k : defaultKeyer σ) (buf : Slice) (c : GenCall),
        c.lookupsOk ix k → ∃ key k', c.run ix k buf = (.ok key, k'))
    ∧ (∀ (σ : Type) (ix : smallIndex σ) (k : defaultKeyer σ) (buf : Slice) (c : GenCall)
        (key : Slice) (k' : defaultKeyer σ), c.run ix k buf = (.ok key, k') →
        c.headerLen ≤ key.len ∧ ∀ k'' : defaultKeyer σ, c.parsersOk ix k'' key) := by
  refine ⟨?_, ?_, ?_⟩
  · intro c
    cases c <;> rfl
  · intro σ ix k buf c h
    obtain ⟨key, k', R, hk, -⟩ := GenCall.run_ok ix k buf c h
    exact ⟨key, k', hk⟩
  · intro σ ix k buf c key k' h
    have hl := GenCall.run_len ix k buf c key k' h
    exact ⟨hl, fun k'' => GenCall.parsersOk_of_len ix k'' key c hl⟩

/-- Witness of C23: a device file key with an empty name, generated on a fresh
store with the nil buffer, has 9 bytes and its four parsers return. -/
theorem parsers_in_range_witness :
    (GenCall.deviceFile [102] [100] []).headerLen
        ≤ ({ elems := [0, 0, 0, 0, 0, 0, 0, 0, 0], spare := [] } : Slice).len
    ∧ ∀ k'' : defaultKeyer indexState, (GenCall.deviceFile [102] [100] []).parsersOk specIndex k''
        { elems := [0, 0, 0, 0, 0, 0, 0, 0, 0], spare := [] } :=
  parsers_in_range.2.2 indexState specIndex freshKeyer Slice.nil (.deviceFile [102] [100] [])
    ⟨[0, 0, 0, 0, 0, 0, 0, 0, 0], []⟩ ⟨⟨[[102]], true⟩, ⟨[[100]], true⟩⟩ rfl

end Keyer

namespace Dialer

/-! ## The proxy dial with fallback -/

theorem Inv_init (pr fr : DialResult) : Inv pr fr State.init := by
  simp [Inv, State.init]

theorem Inv_step (pr fr : DialResult) (s s' : State) (a : Action)
    (h : step pr fr s a = some s') (hs : Inv pr fr s) : Inv pr fr s' := by
  obtain ⟨h1, h2, h3, h4, h5, h6⟩ := hs
  cases a with
  | proxyDial =>
    simp only [step] at h
    split at h
    · cases h
    · rename_i hpa
      cases h
      refine ⟨fun _ => ⟨rfl, rfl⟩, fun _ => rfl, h3, h4, h5, h6⟩
  | proxyClose =>
    simp only [step] at h
    split at h
    · rename_i hc
      cases h
      simp only [Bool.and_eq_true] at hc
      exact ⟨h1, fun _ => hc.1, h3, h4, h5, h6⟩
    · cases h
  | fallbackDial =>
    simp only [step] at h
    split at h
    · cases h
    · cases h
      exact ⟨h1, h2, fun _ => ⟨rfl, rfl⟩, fun _ => rfl, h5, h6⟩
  | fallbackClose =>
    simp only [step] at h
    split at h
    · rename_i hc
      cases h
      simp only [Bool.and_eq_true] at hc
      exact ⟨h1, h2, h3, fun _ => hc.1, h5, h6⟩
    · cases h
  | main =>
    simp only [step] at h
    split at h
    · rename_i hm
      split at h
      · rename_i hd
        obtain ⟨hc, he⟩ := h1 (h2 hd)
        split at h
        · rename_i hn
          cases h
          refine ⟨h1, h2, h3, h4, (fun hx => by cases hx), ?_⟩
          intro conn err hr
          simp only [MainPC.returned.injEq] at hr
          obtain ⟨rfl, rfl⟩ := hr
          rw [he] at hn
          simp [hn, hc]
        · rename_i hn
          cases h
          refine ⟨h1, h2, h3, h4, fun _ => ?_, (fun conn err hx => by cases hx)⟩
          rw [he] at hn
          exact Bool.eq_false_iff.mpr hn
      · cases h
    · rename_i hm
      split at h
      · rename_i hd
        obtain ⟨hc, he⟩ := h3 (h4 hd)
        cases h
        refine ⟨h1, h2, h3, h4, (fun hx => by cases hx), ?_⟩
        intro conn err hr
        simp only [MainPC.returned.injEq] at hr
        obtain ⟨rfl, rfl⟩ := hr
        simp [h5 hm, hc, he]
      · cases h
    · cases h
  | closer =>
    simp only [step] at h
    split at h
    · split at h
      · cases h
        exact ⟨h1, h2, h3, h4, h5, h6⟩
      · cases h
    · cases h

theorem Inv_exec (pr fr : DialResult) (sched : List Action) (s s' : State)
    (h : exec pr fr sched s = some s') (hs : Inv pr fr s) : Inv pr fr s' := by
  induction sched generalizing s with
  | nil =>
    simp only [exec, Option.some.injEq] at h
    exact h ▸ hs
  | cons a as ih =>
    simp only [exec] at h
    split at h
    · rename_i s₁ h₁
      exact ih s₁ h (Inv_step pr fr s s₁ a h₁ hs)
    · cases h

theorem exec_append (pr fr : DialResult) (as bs : List Action) (s : State) :
    exec pr fr (as ++ bs) s = (exec pr fr as s).bind (exec pr fr bs) := by
  induction as generalizing s with
  | nil => rfl
  | cons a as ih =>
    simp only [List.cons_append, exec]
    split
    · exact ih _
    · rfl

/-- From every state of the invariant the schedule `finish` brings the function
to its return. -/
theorem exec_finish (pr fr : DialResult) (s : State) (hs : Inv pr fr s) :
    ∃ s', exec pr fr (finish pr s) s = some s' ∧ ∃ conn err, s'.main = .returned conn err := by
  obtain ⟨h1, h2, h3, h4, h5, h6⟩ := hs
  rcases s with ⟨pc, pe, fc, fe, pa, pd, fa, fd, m, cl, fcl⟩
  rcases pr with ⟨prc, pre⟩
  simp only at h1 h2 h3 h4 h5 h6
  cases m <;> cases pa <;> cases pd <;> cases fa <;> cases fd <;> cases pre <;>
    simp_all [finish, proxySteps, fallbackSteps, exec, step]

theorem dialContextWithFallback_result (pr fr : DialResult) (sched : List Action)
    (r : Option Conn × Option Error)
    (h : dialContextWithFallback .proxied false pr fr sched = some r) :
    r = if pr.err.isNone then (pr.conn, none) else (fr.conn, fr.err) := by
  simp only [dialContextWithFallback, Bool.false_eq_true, ↓reduceIte] at h
  split at h
  · rename_i s hs
    have hinv := Inv_exec pr fr sched State.init s hs (Inv_init pr fr)
    split at h
    · rename_i conn err hm
      cases h
      exact hinv.2.2.2.2.2 conn err hm
    · cases h
  · cases h

/-- C19. Proxy dial with fallback: when a proxy other than the direct dialer
is configured and fallback is allowed, then under every interleaving of the
goroutines `dialContextWithFallback` returns the proxy connection with a nil
error whenever the proxy dial succeeds, whatever the fallback dial returns,
and exactly the connection and error of the fallback dial when the proxy dial
fails; and every interleaving, however far it has gone, extends to one under
which the function returns. -/
theorem dialContextWithFallback_proxy (pr fr : DialResult) :
    (pr.err = none → ∀ (sched : List Action) (r : Option Conn × Option Error),
        dialContextWithFallback .proxied false pr fr sched = some r → r = (pr.conn, none))
    ∧ (pr.err ≠ none → ∀ (sched : List Action) (r : Option Conn × Option Error),
        dialContextWithFallback .proxied false pr fr sched = some r → r = (fr.conn, fr.err))
    ∧ (∀ (sched : List Action) (s : State), exec pr fr sched State.init = some s →
        ∃ r, dialContextWithFallback .proxied false pr fr (sched ++ finish pr s) = some r) := by
  refine ⟨?_, ?_, ?_⟩
  · intro he sched r h
    have := dialContextWithFallback_result pr fr sched r h
    simpa [he] using this
  · intro he sched r h
    have := dialContextWithFallback_result pr fr sched r h
    have hn : pr.err.isNone = false := by
      cases hpe : pr.err with
      | none => exact absurd hpe he
      | some e => rfl
    simpa [hn] using this
  · intro sched s hs
    have hinv := Inv_exec pr fr sched State.init s hs (Inv_init pr fr)
    obtain ⟨s', hs', conn, err, hm⟩ := exec_finish pr fr s hinv
    refine ⟨(conn, err), ?_⟩
    simp only [dialContextWithFallback, Bool.false_eq_true, ↓reduceIte, exec_append, hs,
      Option.some_bind, hs', hm]

/-- Witness of C19: the fallback dial finishes first and succeeds, the proxy
dial succeeds too; the function returns the proxy connection. -/
theorem dialContextWithFallback_proxy_witness :
    dialContextWithFallback .proxied false ⟨some 1, none⟩ ⟨some 7, none⟩
        [.fallbackDial, .fallbackClose, .proxyDial, .proxyClose, .main] = some (some 1, none)
    ∧ ((some 1, none) : Option Conn × Option Error)
        = ((⟨some 1, none⟩ : DialResult).conn, none) :=
  ⟨rfl, (dialContextWithFallback_proxy ⟨some 1, none⟩ ⟨some 7, none⟩).1 rfl
    [.fallbackDial, .fallbackClose, .proxyDial, .proxyClose, .main] (some 1, none) rfl⟩

end Dialer
